import Mathlib

/-!
Verification development for the linear-bridge repository.

Shallow embedding of the trigger dispatch engine (src/triggers/*), the
deduplication guards (src/types.ts and the GitHub webhook module), the
permission policy engine and the agent session runner (src/sandbox.ts),
together with theorems settling the frozen claims about them.

External effects (network, timers, git subprocesses) are modelled as
explicit environment records; machine integers are Nat (timestamps are
small enough that JS number arithmetic is exact).
-/

namespace LinearBridge

/-! ### String primitives

Structural (character-list) implementations of the JS string operations
the source uses (`toLowerCase`, `trim`, `split`, `startsWith`,
`includes`). They compute by structural recursion so that concrete runs
of the embedded code reduce inside the kernel. -/

def isSpaceChar (c : Char) : Bool := c.isWhitespace

/-- JS `String.prototype.toLowerCase` (ASCII-faithful). -/
def lowerStr (s : String) : String := ⟨s.data.map Char.toLower⟩

def trimCharList (l : List Char) : List Char :=
  ((l.dropWhile isSpaceChar).reverse.dropWhile isSpaceChar).reverse

/-- JS `String.prototype.trim`. -/
def trimStr (s : String) : String := ⟨trimCharList s.data⟩

/-- Split on the leftmost occurrences of a nonempty separator; the fuel is
an upper bound on the input length, so the recursion is structural. -/
def splitOnFuel (sep : List Char) : Nat → List Char → List Char → List (List Char)
  | 0, l, cur => [cur.reverse ++ l]
  | _ + 1, [], cur => [cur.reverse]
  | fuel + 1, c :: rest, cur =>
    if (c :: rest).take sep.length = sep then
      cur.reverse :: splitOnFuel sep fuel ((c :: rest).drop sep.length) []
    else
      splitOnFuel sep fuel rest (c :: cur)

/-- JS `String.prototype.split(sep)` for a nonempty string separator. -/
def splitOnStr (s sep : String) : List String :=
  if sep.data = [] then [s]
  else (splitOnFuel sep.data s.data.length s.data []).map (fun l => ⟨l⟩)

/-- JS `String.prototype.startsWith`. -/
def startsWithStr (s p : String) : Bool := decide (s.data.take p.data.length = p.data)

/-- JS `String.prototype.includes(c)` for one character. -/
def containsChar (s : String) (c : Char) : Bool := s.data.contains c

/-- Whether `s` contains `pat` (`pat` nonempty) as a substring. -/
def containsSubstring (s pat : String) : Bool := (splitOnStr s pat).length > 1

/-! ### JSON-like values

Model of the untyped `metadata` payloads reaching the permission engine
(`decidePermissionReply` in src/sandbox.ts). -/

inductive JVal where
  | null
  | jbool (b : Bool)
  | jnum (n : Int)
  | jstr (s : String)
  | jarr (items : List JVal)
  | jobj (fields : List (String × JVal))
deriving Repr

/-- Property access `v.k` on a JS value: only objects yield fields (JS
`typeof` also admits arrays and null, but those have no string-keyed own
properties, so the observable behaviour is identical). -/
def JVal.getField : JVal → String → Option JVal
  | .jobj fields, k => (fields.find? (fun f => f.1 = k)).map (fun f => f.2)
  | _, _ => none

/-- Insertion preserving first occurrence, as JS `Set.add` /
`array.includes || push` do. Shared by `extractPermissionToolNames`,
`parseGitStatusFiles` and the filesModified accumulator. -/
def insertNew (acc : List String) (s : String) : List String :=
  if s ∈ acc then acc else acc ++ [s]

/-- `extractPermissionToolNames` from src/sandbox.ts: collect the trimmed,
deduplicated `toolName` strings below `metadata.permissionSuggestions[*].rules[*]`. -/
def extractPermissionToolNames (metadata : JVal) : List String :=
  match metadata.getField "permissionSuggestions" with
  | some (.jarr suggestions) =>
    suggestions.foldl (fun acc suggestion =>
      match suggestion.getField "rules" with
      | some (.jarr rules) =>
        rules.foldl (fun acc2 rule =>
          match rule.getField "toolName" with
          | some (.jstr toolName) =>
            if trimStr toolName = "" then acc2 else insertNew acc2 (trimStr toolName)
          | _ => acc2) acc
      | _ => acc) []
  | _ => []

/-- `extractPermissionCommand` from src/sandbox.ts: `metadata.input.command`
when it is a string. -/
def extractPermissionCommand (metadata : JVal) : Option String :=
  match metadata.getField "input" with
  | some inputVal =>
    match inputVal.getField "command" with
    | some (.jstr cmd) => some cmd
    | _ => none
  | none => none

/-! Semantic model of the regular expressions used by the permission
engine and the trigger evaluators. JS `\w` is `[A-Za-z0-9_]`, `\b` is a
transition between a word and a non-word position (string edges count as
non-word). All tests are case-insensitive, modelled by lowercasing. -/

def isWordChar (c : Char) : Bool := c.isAlphanum || c = '_'

def wordAt (l : List Char) (i : Nat) : Bool :=
  match l.get? i with
  | some c => isWordChar c
  | none => false

/-- `\b` holds at position `i` (between characters `i - 1` and `i`). -/
def boundaryAt (l : List Char) (i : Nat) : Bool :=
  (decide (i ≠ 0) && wordAt l (i - 1)) != wordAt l i

/-- The literal pattern `pat` matches the haystack at position `i`. -/
def matchesAt (hay pat : List Char) (i : Nat) : Bool :=
  decide ((hay.drop i).take pat.length = pat)

/-- `/\bpat\b/i.test(hay)` for a literal (regex-escaped) `pat`. -/
def testWordRE (hay pat : String) : Bool :=
  let h := (lowerStr hay).data
  let p := (lowerStr pat).data
  (List.range (h.length + 1)).any (fun i =>
    matchesAt h p i && boundaryAt h i && boundaryAt h (i + p.length))

/-- `/pat\b/i.test(hay)`: match anywhere, word boundary after. -/
def testTrailingBoundaryRE (hay pat : String) : Bool :=
  let h := (lowerStr hay).data
  let p := (lowerStr pat).data
  (List.range (h.length + 1)).any (fun i =>
    matchesAt h p i && boundaryAt h (i + p.length))

/-- `/^\s*pat\b/i.test(hay)`: leading whitespace, then the literal, then a
word boundary. -/
def testAnchoredRE (hay pat : String) : Bool :=
  let h := (lowerStr hay).data
  let p := (lowerStr pat).data
  (List.range (h.length + 1)).any (fun i =>
    (h.take i).all isSpaceChar && matchesAt h p i && boundaryAt h (i + p.length))

/-- `/\bw1\s+w2\b/i.test(hay)` for literal words `w1`, `w2`. -/
def testWordPairRE (hay w1 w2 : String) : Bool :=
  let h := (lowerStr hay).data
  let p1 := (lowerStr w1).data
  let p2 := (lowerStr w2).data
  (List.range (h.length + 1)).any (fun i =>
    matchesAt h p1 i && boundaryAt h i &&
    (List.range (h.length + 1)).any (fun k =>
      decide (1 ≤ k) &&
      decide (((h.drop (i + p1.length)).take k).length = k) &&
      ((h.drop (i + p1.length)).take k).all isSpaceChar &&
      matchesAt h p2 (i + p1.length + k) &&
      boundaryAt h (i + p1.length + k + p2.length)))

/-- `/^mcp__.*linear/i.test(t)`: the lowercased name starts with `mcp__`
and contains `linear` later on the same line (JS `.` does not match a
newline). -/
def isLinearMcpTool (t : String) : Bool :=
  let l := lowerStr t
  startsWithStr l "mcp__" && containsSubstring ((splitOnStr (l.drop 5) "\n").headD "") "linear"

def gitDenyVerbs : List String :=
  ["commit", "push", "merge", "rebase", "reset", "checkout", "cherry-pick", "apply", "am"]

def plainDenyWords : List String := ["rm", "mv", "cp", "chmod", "chown", "ln"]

def installDenyPairs : List (String × String) :=
  [("brew", "install"), ("bun", "install"), ("npm", "install"),
   ("pnpm", "install"), ("yarn", "install")]

/-- `isReviewWriteCommand` from src/sandbox.ts: deny-list pattern match over
the command text (git history operations, file mutations, `tee`,
redirection, package-manager installs). -/
def isReviewWriteCommand (command : String) : Bool :=
  let cmd := trimStr command
  if cmd = "" then false
  else
    gitDenyVerbs.any (fun v => testWordPairRE cmd "git" v) ||
    plainDenyWords.any (fun w => testWordRE cmd w) ||
    testWordRE cmd "tee" ||
    containsChar cmd '>' ||
    installDenyPairs.any (fun p => testWordPairRE cmd p.1 p.2)

inductive PermissionReply where
  | once
  | reject
deriving Repr, DecidableEq

inductive PermissionPolicy where
  | defaultPolicy
  | mentionReply
  | review
deriving Repr, DecidableEq

/-- `decidePermissionReply` from src/sandbox.ts. `default` always grants;
`mentionReply` and `review` reject Linear MCP tools (by suggestion tool
names, then by a command-text fallback); `review` additionally rejects
write-like shell commands. -/
def decidePermissionReply (metadata : JVal) (policy : PermissionPolicy) : PermissionReply :=
  if policy = .defaultPolicy then .once
  else
    let toolNames := extractPermissionToolNames metadata
    if toolNames.any isLinearMcpTool then .reject
    else
      let cmd := extractPermissionCommand metadata
      if (match cmd with
          | some c => testWordRE c "mcp-cli" && testWordRE c "linear"
          | none => false) then .reject
      else if policy = .mentionReply then .once
      else if (match cmd with
          | some c => isReviewWriteCommand c
          | none => false) then .reject
      else .once

/-! ### Trigger data model (src/config schema and src/triggers/base.ts) -/

inductive LinearAction where
  | create
  | update
  | remove
deriving Repr, DecidableEq

inductive LinearEventType where
  | issue
  | comment
deriving Repr, DecidableEq

inductive TriggerType where
  | label
  | hashtag
  | mention
deriving Repr, DecidableEq

inductive TriggerAction where
  | full
  | quick
  | context
  | guide
  | plan
  | reply
  | review
  | github
deriving Repr, DecidableEq

inductive SandboxAgentName where
  | claude
  | codex
  | opencode
  | amp
deriving Repr, DecidableEq

/-- `TriggerSchema` from the config schema: `on` is optional with no
default, so a rule may carry no operation restriction at all. -/
structure TriggerConfig where
  type : TriggerType
  value : String
  action : TriggerAction
  agent : Option SandboxAgentName := none
  onOps : Option (List LinearAction) := none
deriving Repr, DecidableEq

structure TriggerLabel where
  id : String
  name : String
deriving Repr, DecidableEq

structure IssueCtx where
  id : String
  identifier : Option String := none
  title : Option String := none
  description : Option String := none
  labels : Option (List String) := none
  labelsDetailed : Option (List TriggerLabel) := none
  labelIds : Option (List String) := none
  updatedFromLabelIds : Option (List String) := none
deriving Repr, DecidableEq

structure CommentCtx where
  id : String
  body : String
deriving Repr, DecidableEq

structure TriggerContext where
  eventType : LinearEventType
  action : LinearAction
  issue : IssueCtx
  comment : Option CommentCtx := none
deriving Repr, DecidableEq

/-- The normalized label name a label rule looks for. -/
def wantedLabel (trigger : TriggerConfig) : String := lowerStr (trimStr trigger.value)

/-- `context.issue.labelIds ?? context.issue.labelsDetailed?.map(id) ?? []`. -/
def currentLabelIdsOf (issue : IssueCtx) : List String :=
  match issue.labelIds with
  | some ids => ids
  | none =>
    match issue.labelsDetailed with
    | some ds => ds.map (fun l => TriggerLabel.id l)
    | none => []

/-- `context.issue.labelsDetailed?.find(name match)?.id`. -/
def wantedLabelIdOf (trigger : TriggerConfig) (issue : IssueCtx) : Option String :=
  ((issue.labelsDetailed.getD []).find?
    (fun l => lowerStr (trimStr l.name) = wantedLabel trigger)).map
    (fun l => TriggerLabel.id l)

/-- `labelTriggerEvaluator.matches` from src/triggers/label.ts. -/
def labelMatches (trigger : TriggerConfig) (ctx : TriggerContext) : Bool :=
  if ctx.eventType ≠ .issue then false
  else
    let wanted := wantedLabel trigger
    if wanted = "" then false
    else
      let labels := ctx.issue.labels.getD []
      let hasLabel := labels.any (fun label => lowerStr (trimStr label) = wanted)
      if !hasLabel then false
      else if ctx.action ≠ .update then true
      else
        match ctx.issue.updatedFromLabelIds with
        | none => false
        | some previousLabelIds =>
          match wantedLabelIdOf trigger ctx.issue with
          | none => false
          | some lid =>
            !(previousLabelIds.contains lid) && (currentLabelIdsOf ctx.issue).contains lid

/-- `hashtagTriggerEvaluator.matches` from src/triggers/hashtag.ts. -/
def hashtagMatches (trigger : TriggerConfig) (ctx : TriggerContext) : Bool :=
  match ctx.eventType, ctx.comment with
  | .comment, some c =>
    let value := if startsWithStr trigger.value "#" then trigger.value else "#" ++ trigger.value
    testTrailingBoundaryRE c.body value
  | _, _ => false

/-- `mentionTriggerEvaluator.matches` from src/triggers/mention.ts. -/
def mentionMatches (trigger : TriggerConfig) (ctx : TriggerContext) : Bool :=
  match ctx.eventType, ctx.comment with
  | .comment, some c =>
    let wanted := trimStr trigger.value
    if wanted = "" then false else testAnchoredRE c.body wanted
  | _, _ => false

/-- The plugin registry of src/plugins/registry.ts after the three
`registerTrigger` calls in src/triggers/matcher.ts. -/
def getTriggerEvaluator : TriggerType → Option (TriggerConfig → TriggerContext → Bool)
  | .label => some labelMatches
  | .hashtag => some hashtagMatches
  | .mention => some mentionMatches

structure TriggerMatch where
  trigger : TriggerConfig
  action : TriggerAction
deriving Repr, DecidableEq

/-- `matchTriggers` from src/triggers/matcher.ts: first rule whose `on`
gate passes (a missing `on` is falsy, so the gate is skipped) and whose
evaluator accepts wins. -/
def matchTriggers : List TriggerConfig → TriggerContext → Option TriggerMatch
  | [], _ => none
  | trigger :: rest, ctx =>
    if (match trigger.onOps with
        | some ops => decide (ctx.action ∉ ops)
        | none => false) then
      matchTriggers rest ctx
    else
      match getTriggerEvaluator trigger.type with
      | none => matchTriggers rest ctx
      | some evaluator =>
        if evaluator trigger ctx then some ⟨trigger, trigger.action⟩
        else matchTriggers rest ctx

/-- The acceptance predicate implicit in one iteration of `matchTriggers`. -/
def ruleAccepts (trigger : TriggerConfig) (ctx : TriggerContext) : Bool :=
  (match trigger.onOps with
   | some ops => decide (ctx.action ∈ ops)
   | none => true) &&
  (match getTriggerEvaluator trigger.type with
   | some evaluator => evaluator trigger ctx
   | none => false)

/-! ### Deduplication guards

`isDuplicateEvent` / `markEventProcessed` (src/types.ts webhook module) and
`isDuplicateGithubDelivery` (GitHub webhook module). The JS `Map` objects
(module-level state) are modelled as explicit key-unique association
lists passed in and out; `Date.now()` is an explicit `now` argument.
Nat subtraction is faithful here: a stored timestamp in the future makes
`now - ts` zero, which compares below the window exactly as the negative
JS number would. -/

abbrev DedupMap := List (String × Nat)

def DEDUP_WINDOW_MS : Nat := 30000

def GITHUB_DEDUP_WINDOW_MS : Nat := 300000

def lookupTs (m : DedupMap) (key : String) : Option Nat :=
  (m.find? (fun e => e.1 = key)).map (fun e => e.2)

/-- JS `Map.set`: overwrite in place when the key exists, append otherwise. -/
def mapSet : DedupMap → String → Nat → DedupMap
  | [], key, v => [(key, v)]
  | e :: rest, key, v =>
    if e.1 = key then (key, v) :: rest else e :: mapSet rest key v

/-- The lazy eviction sweep: delete entries with `now - ts > window`. -/
def sweepExpired (m : DedupMap) (now window : Nat) : DedupMap :=
  m.filter (fun e => !(decide (now - e.2 > window)))

/-- The truthiness test `processedAt && now - processedAt < window` (a zero
timestamp is falsy in JS). -/
def freshHit (processedAt : Option Nat) (now window : Nat) : Bool :=
  match processedAt with
  | some t => decide (t ≠ 0) && decide (now - t < window)
  | none => false

/-- `isDuplicateEvent` from src/types.ts: duplicate check only; sweeps when
the map holds more than 1000 entries; does not record the key. -/
def isDuplicateEvent (m : DedupMap) (key : String) (now : Nat) : Bool × DedupMap :=
  if freshHit (lookupTs m key) now DEDUP_WINDOW_MS then (true, m)
  else
    (false, if m.length > 1000 then sweepExpired m now DEDUP_WINDOW_MS else m)

/-- `markEventProcessed` from src/types.ts. -/
def markEventProcessed (m : DedupMap) (key : String) (now : Nat) : DedupMap :=
  mapSet m key now

/-- The `seen` composition the webhook handler performs: check, and record
only when the event was not a duplicate. -/
def linearSeen (m : DedupMap) (key : String) (now : Nat) : Bool × DedupMap :=
  let r := isDuplicateEvent m key now
  if r.1 then (true, r.2) else (false, markEventProcessed r.2 key now)

/-- `isDuplicateGithubDelivery` from the GitHub webhook module: check,
sweep when above 2000 entries, and record, in one function. -/
def isDuplicateGithubDelivery (m : DedupMap) (deliveryId : String) (now : Nat) :
    Bool × DedupMap :=
  if freshHit (lookupTs m deliveryId) now GITHUB_DEDUP_WINDOW_MS then (true, m)
  else
    let m1 := if m.length > 2000 then sweepExpired m now GITHUB_DEDUP_WINDOW_MS else m
    (false, mapSet m1 deliveryId now)

/-! ### Webhook handler (createWebhookHandler in src/types.ts) -/

def eventTypeStr : LinearEventType → String
  | .issue => "Issue"
  | .comment => "Comment"

def actionStr : LinearAction → String
  | .create => "create"
  | .update => "update"
  | .remove => "remove"

/-- `getDeduplicationKey` from src/types.ts. -/
def getDeduplicationKey (ptype paction dataId : String) : String :=
  ptype ++ ":" ++ paction ++ ":" ++ dataId

/-- JS truthiness of an optional string (empty string is falsy). -/
def strTruthy : Option String → Bool
  | some s => !s.isEmpty
  | none => false

/-- The dedup-key computation in `createWebhookHandler`: the
`linear-delivery` header, else the payload `webhookId`, else the composite
key. -/
def webhookDedupKey (deliveryId webhookId : Option String)
    (ptype paction dataId : String) : String :=
  if strTruthy deliveryId then "delivery:" ++ deliveryId.getD ""
  else if strTruthy webhookId then "webhook:" ++ webhookId.getD ""
  else getDeduplicationKey ptype paction dataId

structure LinearIssueData where
  id : String
  title : String
  description : Option String := none
  identifier : Option String := none
  url : Option String := none
  labels : Option (List TriggerLabel) := none
  labelIds : Option (List String) := none
deriving Repr, DecidableEq

structure LinearCommentData where
  id : String
  body : String
  issueId : String
deriving Repr, DecidableEq

/-- The payload `data` field after the schema union parse tagged it as
comment-shaped or issue-shaped. -/
inductive PayloadData where
  | issueD (i : LinearIssueData)
  | commentD (c : LinearCommentData)
deriving Repr, DecidableEq

def PayloadData.dataId : PayloadData → String
  | .issueD i => i.id
  | .commentD c => c.id

/-- A payload accepted by `LinearWebhookPayloadSchema`. -/
structure WebhookPayload where
  action : LinearAction
  ptype : LinearEventType
  data : PayloadData
  updatedFromLabelIds : Option (List String) := none
  webhookId : Option String := none
deriving Repr, DecidableEq

/-- `normalizeLabels` from src/types.ts. -/
def normalizeLabels : Option (List TriggerLabel) → List String
  | some ls => ls.map (fun l => l.name)
  | none => []

inductive WebhookResponse where
  | invalidSignature
  | invalidPayload
  | invalidIssueData
  | invalidCommentData
  | duplicateIgnored
  | noTriggerIssue
  | noTriggerComment
  | notCreateIgnored
  | processing (t : TriggerType)
deriving Repr, DecidableEq

/-- `createWebhookHandler` from src/types.ts, up to the dispatch decision.
Inputs: the HMAC verification outcome (`sigOk`); the
`LinearWebhookPayloadSchema` parse outcome (`parsed`, `none` when the
parse failed); the `linear-delivery` header; the dedup map and clock.
Output: response, updated dedup map, and the workflow dispatch decision
(the comment-posting and background processing are external effects
keyed on that decision). -/
def webhookHandler (triggers : List TriggerConfig) (sigOk : Bool)
    (deliveryId : Option String) (parsed : Option WebhookPayload)
    (m : DedupMap) (now : Nat) : WebhookResponse × DedupMap × Option TriggerMatch :=
  if !sigOk then (.invalidSignature, m, none)
  else
    match parsed with
    | none => (.invalidPayload, m, none)
    | some payload =>
      let dedupKey := webhookDedupKey deliveryId payload.webhookId
        (eventTypeStr payload.ptype) (actionStr payload.action) payload.data.dataId
      let checked := isDuplicateEvent m dedupKey now
      if checked.1 then (.duplicateIgnored, checked.2, none)
      else
        let m2 := markEventProcessed checked.2 dedupKey now
        match payload.ptype with
        | .issue =>
          match payload.data with
          | .commentD _ => (.invalidIssueData, m2, none)
          | .issueD issue =>
            let tm := matchTriggers triggers {
              eventType := .issue
              action := payload.action
              issue := {
                id := issue.id
                identifier := issue.identifier
                title := some issue.title
                description := issue.description
                labels := some (normalizeLabels issue.labels)
                labelsDetailed := issue.labels
                labelIds :=
                  (match issue.labelIds with
                   | some ids => some ids
                   | none => issue.labels.map (fun ls => ls.map (fun l => TriggerLabel.id l)))
                updatedFromLabelIds := payload.updatedFromLabelIds } }
            match tm with
            | none => (.noTriggerIssue, m2, none)
            | some t => (.processing t.trigger.type, m2, some t)
        | .comment =>
          if payload.action ≠ .create then (.notCreateIgnored, m2, none)
          else
            match payload.data with
            | .issueD _ => (.invalidCommentData, m2, none)
            | .commentD c =>
              let tm := matchTriggers triggers {
                eventType := .comment
                action := payload.action
                issue := { id := c.issueId }
                comment := some { id := c.id, body := c.body } }
              match tm with
              | none => (.noTriggerComment, m2, none)
              | some t => (.processing t.trigger.type, m2, some t)

/-! ### Agent session runner (runSandboxAgent in src/sandbox.ts)

The sandbox-agent SDK is modelled as a `SandboxEnv`: the ordered event log
of the session (served by `getEvents` in slices), how many events the live
stream delivers before closing or erroring, and when the timeout timer
fires. The timer is abstracted to outer-loop iteration boundaries, the
points at which the code checks `abortController.signal`; the granted
wall-clock quantities (timeoutMs, progress intervals) do not influence any
claim and are not modelled. Progress updates (`onProgress`) are external
fire-and-forget effects and are omitted. -/

/-- `SandboxResult` from src/types.ts (the `reason` is a string because the
code casts the runtime-supplied reason unchecked). -/
structure SandboxResult where
  success : Bool
  sessionId : String
  reason : String
  filesModified : List String
  summary : String
  answer : Option String := none
  error : Option String := none
deriving Repr, DecidableEq

inductive ContentPart where
  | fileRef (path : String) (action : String)
  | toolCall (name : String)
  | textPart (text : String)
  | otherPart
deriving Repr, DecidableEq

structure SessionItem where
  kind : String
  role : String
  status : Option String := none
  content : List ContentPart := []
deriving Repr, DecidableEq

inductive SessionEvent where
  | sessionStarted
  | itemCompleted (item : Option SessionItem)
  | permissionRequested (permissionId : String) (metadata : JVal)
  | questionRequested (questionId : String)
  | sessionEnded (reason : String) (message : Option String)
  | otherEvent
deriving Repr

/-- One `file_ref` content part folded into `filesModified` as
`handleItemCompleted` does: record the path for a `write` or `patch`
action unless it is already present. -/
def fileRefInsert (files : List String) (part : ContentPart) : List String :=
  match part with
  | .fileRef path action =>
    if (action = "write" ∨ action = "patch") ∧ path ∉ files then files ++ [path]
    else files
  | _ => files

/-- The `filesModified` update of `handleItemCompleted`. -/
def updateFilesFromItem (files : List String) (item : Option SessionItem) : List String :=
  match item with
  | none => files
  | some it => it.content.foldl fileRefInsert files

/-- The text of an assistant message item:
`content.filter(text).map(text).join('')`. -/
def assistantText (it : SessionItem) : String :=
  String.join (it.content.filterMap (fun part =>
    match part with
    | .textPart t => some t
    | _ => none))

def buildSummary (files : List String) : String :=
  if files.length = 0 then "No files were modified."
  else "Modified " ++ toString files.length ++ " file(s): " ++ String.intercalate ", " files

/-! Workspace inspection for result finalization. Each field is the text
output of the corresponding git command, `none` when the command threw. -/

structure WorkspaceEnv where
  statusOut : Option String := none
  symbolicRefOut : Option String := none
  diffOut : Option String := none
deriving Repr, DecidableEq

/-- The path of one `git status --porcelain` line (status prefix dropped,
rename arrows resolved to the right-hand side), `none` for blank lines. -/
def statusLinePath (line : String) : Option String :=
  if trimStr line = "" then none
  else
    let pathPart := trimStr (line.drop 3)
    if pathPart = "" then none
    else
      match (splitOnStr pathPart " -> ").getLast? with
      | some p => some p
      | none => some pathPart

/-- `parseGitStatusFiles` from src/sandbox.ts. -/
def parseGitStatusFiles (output : String) : List String :=
  (splitOnStr output "\n").foldl (fun files line =>
    match statusLinePath line with
    | some p => if p ≠ "" ∧ p ∉ files then files ++ [p] else files
    | none => files) []

/-- `getMainBranch` from src/sandbox.ts (the JS strips the first occurrence
of the ref prefix; symbolic-ref output starts with it, so prefix removal is
faithful). -/
def getMainBranch (ws : WorkspaceEnv) : Option String :=
  match ws.symbolicRefOut with
  | none => none
  | some out =>
    let t := trimStr out
    let branch := if startsWithStr t "refs/remotes/origin/" then t.drop 20 else t
    if branch = "" then none else some ("origin/" ++ branch)

/-- `getCommittedFiles` from src/sandbox.ts; `none` when the diff command
threw (propagating into the caller catch). -/
def getCommittedFiles (ws : WorkspaceEnv) : Option (List String) :=
  match getMainBranch ws with
  | none => some []
  | some _ =>
    match ws.diffOut with
    | none => none
    | some out =>
      some (((splitOnStr out "\n").map (fun l => trimStr l)).filter (fun l => l ≠ ""))

/-- `finalizeResult` from src/sandbox.ts: when detection is on and the
agent reported no files, fill `filesModified` (and `summary`) from
uncommitted changes, else from changes relative to the upstream default
branch; any git failure returns the result untouched. -/
def finalizeResult (result : SandboxResult) (ws : WorkspaceEnv)
    (detectFileChanges : Bool) : SandboxResult :=
  if !detectFileChanges then result
  else if result.filesModified.length > 0 then result
  else
    match ws.statusOut with
    | none => result
    | some out =>
      let files := parseGitStatusFiles out
      if files.length > 0 then
        { result with filesModified := files, summary := buildSummary files }
      else
        match getCommittedFiles ws with
        | none => result
        | some committedFiles =>
          if committedFiles.length > 0 then
            { result with filesModified := committedFiles,
                          summary := buildSummary committedFiles }
          else result

/-! The run state machine. -/

structure RunState where
  offset : Nat := 0
  processed : List Nat := []
  filesModified : List String := []
  lastAssistantMessage : String := ""
  sawCompleted : Bool := false
  sawFailed : Bool := false
deriving Repr

structure RunTrace where
  streamAttempts : Nat := 0
  delays : Nat := 0
  terminateCalls : Nat := 0
  terminateFailures : Nat := 0
  fetches : List (Nat × Nat) := []
  permissionReplies : List (String × PermissionReply) := []
  questionRejects : List String := []
deriving Repr

/-- The `handleEvent` closure of `runSandboxAgent` (state updates and the
decision it returns; replies to the runtime are recorded in the trace). -/
def handleEvent (policy : PermissionPolicy) (sessionId : String)
    (st : RunState) (tr : RunTrace) (e : SessionEvent) :
    RunState × RunTrace × Option SandboxResult :=
  match e with
  | .sessionStarted => (st, tr, none)
  | .itemCompleted item =>
    let files := updateFilesFromItem st.filesModified item
    let status := item.bind (fun it => it.status)
    let sawFailedNew := st.sawFailed || status == some "failed"
    let sawCompletedNew := st.sawCompleted || status == some "completed"
    let lastMsg :=
      match item with
      | some it =>
        if it.kind == "message" && it.role == "assistant" then
          let text := assistantText it
          if trimStr text ≠ "" then trimStr text else st.lastAssistantMessage
        else st.lastAssistantMessage
      | none => st.lastAssistantMessage
    ({ st with filesModified := files, sawFailed := sawFailedNew,
               sawCompleted := sawCompletedNew, lastAssistantMessage := lastMsg },
     tr, none)
  | .permissionRequested pid metadata =>
    let reply := decidePermissionReply metadata policy
    (st, { tr with permissionReplies := tr.permissionReplies ++ [(pid, reply)] }, none)
  | .questionRequested qid =>
    (st, { tr with questionRejects := tr.questionRejects ++ [qid] }, none)
  | .sessionEnded reason message =>
    (st, tr, some {
      success := reason == "completed"
      sessionId := sessionId
      reason := reason
      filesModified := st.filesModified
      summary := buildSummary st.filesModified
      answer := if st.lastAssistantMessage = "" then none else some st.lastAssistantMessage
      error := message })
  | .otherEvent => (st, tr, none)

/-- Consume a batch of events: advance `offset` (and the processed-index
log) before handling each event, stopping early when a result is
produced, exactly as the streaming and polling loops do. -/
def processEvents (policy : PermissionPolicy) (sessionId : String) :
    RunState → RunTrace → List SessionEvent → RunState × RunTrace × Option SandboxResult
  | st, tr, [] => (st, tr, none)
  | st, tr, e :: rest =>
    let st0 := { st with offset := st.offset + 1, processed := st.processed ++ [st.offset] }
    match handleEvent policy sessionId st0 tr e with
    | (st1, tr1, some r) => (st1, tr1, some r)
    | (st1, tr1, none) => processEvents policy sessionId st1 tr1 rest

/-- The sandbox-agent environment for one run. -/
structure SandboxEnv where
  events : List SessionEvent
  streamLen : Nat
  streamErr : Option Bool := none
  abortIter : Option Nat := none
  terminateOk : Bool := true

/-- `getEvents(sessionId, {offset, limit})`: a slice of the session event
log plus the `hasMore` flag. -/
def getEventsPage (env : SandboxEnv) (offset limit : Nat) : List SessionEvent × Bool :=
  ((env.events.drop offset).take limit, decide (offset + limit < env.events.length))

/-- Whether the timeout timer has fired before outer-loop iteration `iter`. -/
def abortedAt (env : SandboxEnv) (iter : Nat) : Bool :=
  match env.abortIter with
  | some k => decide (k ≤ iter)
  | none => false

/-- The `pollEvents` loop body: fetch pages of up to 100 events from the
current offset until a result, an empty page, or `hasMore` is false. The
fuel argument only bounds the recursion; `pollEvents` supplies enough for
the loop to always finish on its own conditions. -/
def pollRounds (env : SandboxEnv) (policy : PermissionPolicy) (sessionId : String) :
    Nat → RunState → RunTrace → RunState × RunTrace × Option SandboxResult
  | 0, st, tr => (st, tr, none)
  | fuel + 1, st, tr =>
    let page := (getEventsPage env st.offset 100).1
    let hasMore := (getEventsPage env st.offset 100).2
    let tr1 := { tr with fetches := tr.fetches ++ [(st.offset, 100)] }
    match processEvents policy sessionId st tr1 page with
    | (st1, tr2, some r) => (st1, tr2, some r)
    | (st1, tr2, none) =>
      if page.length = 0 then (st1, tr2, none)
      else if hasMore then pollRounds env policy sessionId fuel st1 tr2
      else (st1, tr2, none)

def pollEvents (env : SandboxEnv) (policy : PermissionPolicy) (sessionId : String)
    (st : RunState) (tr : RunTrace) : RunState × RunTrace × Option SandboxResult :=
  pollRounds env policy sessionId (env.events.length + 1) st tr

/-- One `streamTurn` attempt: the stream delivers the first `streamLen`
events of the log and then either closes or raises (`streamErr`); a
non-retryable error is fatal (`isRetryableStreamError` false rethrows). -/
def streamPhase (env : SandboxEnv) (policy : PermissionPolicy) (sessionId : String)
    (st : RunState) (tr : RunTrace) :
    RunState × RunTrace × Option SandboxResult × Bool :=
  let tr1 := { tr with streamAttempts := tr.streamAttempts + 1 }
  match processEvents policy sessionId st tr1 (env.events.take env.streamLen) with
  | (st1, tr2, some r) => (st1, tr2, some r, false)
  | (st1, tr2, none) =>
    match env.streamErr with
    | some false => (st1, tr2, none, true)
    | _ => (st1, tr2, none, false)

inductive LoopExit where
  | res (r : SandboxResult)
  | timedOut
  | thrown
  | fuelOut
deriving Repr

def answerOf (st : RunState) : Option String :=
  if st.lastAssistantMessage = "" then none else some st.lastAssistantMessage

/-- The `sawFailed` early result. -/
def errorResult (sessionId : String) (st : RunState) : SandboxResult :=
  { success := false, sessionId := sessionId, reason := "error",
    filesModified := st.filesModified, summary := buildSummary st.filesModified,
    answer := answerOf st, error := some "Agent reported a failed item" }

/-- The `sawCompleted` early result. -/
def completedResult (sessionId : String) (st : RunState) : SandboxResult :=
  { success := true, sessionId := sessionId, reason := "completed",
    filesModified := st.filesModified, summary := buildSummary st.filesModified,
    answer := answerOf st, error := none }

/-- The timeout result (the error text carries the timeout in the source;
wall-clock quantities are abstracted). -/
def timeoutResult (sessionId : String) (st : RunState) : SandboxResult :=
  { success := false, sessionId := sessionId, reason := "timeout",
    filesModified := st.filesModified, summary := buildSummary st.filesModified,
    answer := answerOf st, error := some "Timeout - session terminated" }

/-- The `while (!abortController.signal.aborted)` loop of
`runSandboxAgent`: stream once (the turn is sent at most once), then poll,
then check the item-status latches, then wait 1s and repeat. The fuel
bounds the number of iterations of this in-principle unbounded loop. -/
def runLoop (env : SandboxEnv) (ws : WorkspaceEnv) (policy : PermissionPolicy)
    (sessionId : String) (detect : Bool) :
    Nat → Nat → Bool → RunState → RunTrace → RunState × RunTrace × LoopExit
  | 0, _, _, st, tr => (st, tr, .fuelOut)
  | fuel + 1, iter, sentTurn, st, tr =>
    if abortedAt env iter then (st, tr, .timedOut)
    else
      let phase :=
        if sentTurn then (st, tr, none, false)
        else streamPhase env policy sessionId st tr
      match phase with
      | (st1, tr1, _, true) => (st1, tr1, .thrown)
      | (st1, tr1, some r, false) => (st1, tr1, .res (finalizeResult r ws detect))
      | (st1, tr1, none, false) =>
        match pollEvents env policy sessionId st1 tr1 with
        | (st2, tr2, some r) => (st2, tr2, .res (finalizeResult r ws detect))
        | (st2, tr2, none) =>
          if st2.sawFailed then
            (st2, tr2, .res (finalizeResult (errorResult sessionId st2) ws detect))
          else if st2.sawCompleted then
            (st2, tr2, .res (finalizeResult (completedResult sessionId st2) ws detect))
          else
            runLoop env ws policy sessionId detect fuel (iter + 1) true st2
              { tr2 with delays := tr2.delays + 1 }

inductive RunOutcome where
  | result (r : SandboxResult)
  | thrown
  | fuelOut
deriving Repr

/-- `runSandboxAgent`: run the loop from a fresh state; on timeout, request
session termination exactly once (best effort: a failed request is
recorded in the trace and otherwise ignored) and finalize with reason
`timeout`; a fatal stream error propagates as an exception (`thrown`). -/
def runSandboxAgentModel (env : SandboxEnv) (ws : WorkspaceEnv)
    (policy : PermissionPolicy) (sessionId : String) (detect : Bool) (fuel : Nat) :
    RunOutcome × RunState × RunTrace :=
  match runLoop env ws policy sessionId detect fuel 0 false {} {} with
  | (st, tr, .res r) => (.result r, st, tr)
  | (st, tr, .thrown) => (.thrown, st, tr)
  | (st, tr, .fuelOut) => (.fuelOut, st, tr)
  | (st, tr, .timedOut) =>
    let tr1 := { tr with
      terminateCalls := tr.terminateCalls + 1,
      terminateFailures := tr.terminateFailures + (if env.terminateOk then 0 else 1) }
    (.result (finalizeResult (timeoutResult sessionId st) ws detect), st, tr1)

/-! ### Specification-side path extraction (for the filesModified claims) -/

/-- The write/patch file-modification paths of one content part. -/
def partWritePaths (part : ContentPart) : List String :=
  match part with
  | .fileRef path action => if action = "write" ∨ action = "patch" then [path] else []
  | _ => []

def itemWritePaths : Option SessionItem → List String
  | none => []
  | some it => (it.content.map partWritePaths).flatten

def eventWritePaths : SessionEvent → List String
  | .itemCompleted item => itemWritePaths item
  | _ => []

/-- All write/patch record paths of an event stream, in stream order. -/
def streamWritePaths (events : List SessionEvent) : List String :=
  (events.map eventWritePaths).flatten

/-- First-occurrence deduplication. -/
def dedupFirst (paths : List String) : List String :=
  paths.foldl insertNew []

/-- The `filesModified` update one event causes (the projection of
`handleEvent` onto that field). -/
def eventFilesUpdate (files : List String) (e : SessionEvent) : List String :=
  match e with
  | .itemCompleted item => updateFilesFromItem files item
  | _ => files

/-- The `filesModified` accumulator after a list of events. -/
def filesAfterEvents (events : List SessionEvent) : List String :=
  events.foldl eventFilesUpdate []

/-- Index of the first occurrence of `p`. -/
def firstOccIdx : List String → String → Nat
  | [], _ => 0
  | a :: l, p => if a = p then 0 else firstOccIdx l p + 1

/-- A concrete session item with one read and two write/patch file
records, used when evaluating the file-accumulation properties on a
specific stream. -/
def c9Item : SessionItem :=
  { kind := "tool", role := "", content := [.fileRef "a.ts" "write", .fileRef "a.ts" "patch", .fileRef "b.ts" "read"] }

/-- Events that are not `session.ended` (the only event kind for which
`handleEvent` yields a result). -/
def eventNotEnded : SessionEvent → Bool
  | .sessionEnded _ _ => false
  | _ => true

/-- Events that trigger no terminal condition at all: not `session.ended`
and not an item whose status sets the `sawFailed` / `sawCompleted` latch. -/
def eventNonTerminal : SessionEvent → Bool
  | .sessionEnded _ _ => false
  | .itemCompleted item =>
    (match item.bind (fun it => it.status) with
     | some s => !(s == "failed" || s == "completed")
     | none => true)
  | _ => true

/-- The 400-family webhook responses (schema-validation failures). -/
def isBadRequest : WebhookResponse → Bool
  | .invalidPayload => true
  | .invalidIssueData => true
  | .invalidCommentData => true
  | _ => false

/-! ## Helper lemmas -/

theorem finalizeResult_cases (r : SandboxResult) (ws : WorkspaceEnv) (d : Bool) :
    finalizeResult r ws d = r ∨
    ∃ files, finalizeResult r ws d =
      { r with filesModified := files, summary := buildSummary files } := by
  unfold finalizeResult
  split
  · exact .inl rfl
  · split
    · exact .inl rfl
    · split
      · exact .inl rfl
      · dsimp only
        split
        · exact .inr ⟨_, rfl⟩
        · split
          · exact .inl rfl
          · split
            · exact .inr ⟨_, rfl⟩
            · exact .inl rfl

theorem finalizeResult_success (r : SandboxResult) (ws : WorkspaceEnv) (d : Bool) :
    (finalizeResult r ws d).success = r.success := by
  rcases finalizeResult_cases r ws d with h | ⟨files, h⟩ <;> rw [h]

theorem finalizeResult_reason (r : SandboxResult) (ws : WorkspaceEnv) (d : Bool) :
    (finalizeResult r ws d).reason = r.reason := by
  rcases finalizeResult_cases r ws d with h | ⟨files, h⟩ <;> rw [h]

theorem finalizeResult_sessionId (r : SandboxResult) (ws : WorkspaceEnv) (d : Bool) :
    (finalizeResult r ws d).sessionId = r.sessionId := by
  rcases finalizeResult_cases r ws d with h | ⟨files, h⟩ <;> rw [h]

theorem finalizeResult_answer (r : SandboxResult) (ws : WorkspaceEnv) (d : Bool) :
    (finalizeResult r ws d).answer = r.answer := by
  rcases finalizeResult_cases r ws d with h | ⟨files, h⟩ <;> rw [h]

theorem finalizeResult_error (r : SandboxResult) (ws : WorkspaceEnv) (d : Bool) :
    (finalizeResult r ws d).error = r.error := by
  rcases finalizeResult_cases r ws d with h | ⟨files, h⟩ <;> rw [h]

theorem finalizeResult_not_detect (r : SandboxResult) (ws : WorkspaceEnv) :
    finalizeResult r ws false = r := by
  unfold finalizeResult
  rfl

theorem finalizeResult_of_nonempty (r : SandboxResult) (ws : WorkspaceEnv) (d : Bool)
    (h : r.filesModified ≠ []) : finalizeResult r ws d = r := by
  unfold finalizeResult
  have hl : r.filesModified.length > 0 := List.length_pos.mpr h
  split
  · rfl
  · simp [hl]

/-! ## Claim C5 -/

/-- Claim C5: the permission decision function is total and pure — for
every policy and every metadata shape (including missing, null, or
malformed metadata) it returns a grant-once or reject verdict without
throwing; the default policy always grants; the restricted-reply
(mention-reply) policy rejects every request whose suggestions name a
Linear MCP tool (the tracker comment-write capability). -/
theorem claim_C5_permission_policy (metadata : JVal) :
    (∀ policy, decidePermissionReply metadata policy = .once ∨
      decidePermissionReply metadata policy = .reject) ∧
    decidePermissionReply metadata .defaultPolicy = .once ∧
    ((extractPermissionToolNames metadata).any isLinearMcpTool = true →
      decidePermissionReply metadata .mentionReply = .reject) := by
  refine ⟨fun policy => ?_, by simp [decidePermissionReply], fun h => ?_⟩
  · cases h : decidePermissionReply metadata policy
    · exact .inl rfl
    · exact .inr rfl
  · simp [decidePermissionReply, h]

/-- Witness for C5 at a concrete malformed metadata value and a concrete
Linear-MCP-naming metadata value. -/
theorem claim_C5_permission_policy_witness :
    decidePermissionReply (.jarr [.null]) .review = .once ∨
      decidePermissionReply (.jarr [.null]) .review = .reject := by
  have h := (claim_C5_permission_policy (.jarr [.null])).1 .review
  exact h

/-! ## Claim C7 -/

/-- Claim C7: result finalization changes only `filesModified` and
`summary`, and only when the detect flag is set and the agent-reported
list is empty; it fills from uncommitted changes first and only then from
the upstream diff; a nonempty agent-reported list is returned completely
unchanged for every workspace state (so the workspace is not consulted). -/
theorem claim_C7_finalize_frame :
    (∀ (r : SandboxResult) (ws : WorkspaceEnv) (d : Bool),
      (finalizeResult r ws d).success = r.success ∧
      (finalizeResult r ws d).sessionId = r.sessionId ∧
      (finalizeResult r ws d).reason = r.reason ∧
      (finalizeResult r ws d).answer = r.answer ∧
      (finalizeResult r ws d).error = r.error) ∧
    (∀ (r : SandboxResult) (ws : WorkspaceEnv), finalizeResult r ws false = r) ∧
    (∀ (r : SandboxResult) (ws : WorkspaceEnv) (d : Bool),
      r.filesModified ≠ [] → finalizeResult r ws d = r) ∧
    (∀ (r : SandboxResult) (ws : WorkspaceEnv) (out : String),
      r.filesModified = [] → ws.statusOut = some out → parseGitStatusFiles out ≠ [] →
      finalizeResult r ws true =
        { r with filesModified := parseGitStatusFiles out,
                 summary := buildSummary (parseGitStatusFiles out) }) ∧
    (∀ (r : SandboxResult) (ws : WorkspaceEnv) (out : String) (cf : List String),
      r.filesModified = [] → ws.statusOut = some out → parseGitStatusFiles out = [] →
      getCommittedFiles ws = some cf → cf ≠ [] →
      finalizeResult r ws true = { r with filesModified := cf, summary := buildSummary cf }) := by
  refine ⟨fun r ws d => ⟨finalizeResult_success r ws d, finalizeResult_sessionId r ws d,
      finalizeResult_reason r ws d, finalizeResult_answer r ws d, finalizeResult_error r ws d⟩,
    fun r ws => finalizeResult_not_detect r ws,
    fun r ws d h => finalizeResult_of_nonempty r ws d h,
    fun r ws out hempty hstat hfiles => ?_,
    fun r ws out cf hempty hstat hfiles hcf hcfne => ?_⟩
  · unfold finalizeResult
    rw [hempty, hstat]
    simp [List.length_pos.mpr hfiles]
  · unfold finalizeResult
    rw [hempty, hstat]
    simp [hfiles, hcf, List.length_pos.mpr hcfne]

/-- Witness for C7 at concrete inputs: a nonempty agent-reported list is
untouched, and an empty one is filled from `git status` output. -/
theorem claim_C7_finalize_frame_witness :
    finalizeResult
        { success := true, sessionId := "s", reason := "completed",
          filesModified := ["x.ts"], summary := "Modified 1 file(s): x.ts" }
        { statusOut := some " M y.ts" } true =
      { success := true, sessionId := "s", reason := "completed",
        filesModified := ["x.ts"], summary := "Modified 1 file(s): x.ts" } := by
  exact claim_C7_finalize_frame.2.2.1 _ _ true (by decide)

/-! ## Claim C8 -/

/-- Counterexample for claim C8 as stated: with no `linear-delivery`
header but a `webhookId` in the payload, the dedup key is
`webhook:<id>` — it differs from the (kind, operation, subject) composite
key and changes when only the webhook id changes, so it is not the
claimed composite. -/
theorem claim_C8_counterexample :
    webhookDedupKey none (some "wh1") "Issue" "update" "issue1" ≠
      getDeduplicationKey "Issue" "update" "issue1" ∧
    webhookDedupKey none (some "wh1") "Issue" "update" "issue1" ≠
      webhookDedupKey none (some "wh2") "Issue" "update" "issue1" := by
  constructor
  · decide
  · decide

/-- Claim C8 (amended): the dedup key is `delivery:<id>` when the request
carries a nonempty `linear-delivery` header; otherwise `webhook:<id>` when
the payload carries a nonempty `webhookId`; otherwise the stable composite
of kind, operation and subject id. -/
theorem claim_C8_key_precedence (deliveryId webhookId : Option String)
    (ptype paction dataId : String) :
    (∀ d, deliveryId = some d → d ≠ "" →
      webhookDedupKey deliveryId webhookId ptype paction dataId = "delivery:" ++ d) ∧
    ((deliveryId = none ∨ deliveryId = some "") →
      ∀ w, webhookId = some w → w ≠ "" →
      webhookDedupKey deliveryId webhookId ptype paction dataId = "webhook:" ++ w) ∧
    ((deliveryId = none ∨ deliveryId = some "") →
      (webhookId = none ∨ webhookId = some "") →
      webhookDedupKey deliveryId webhookId ptype paction dataId =
        getDeduplicationKey ptype paction dataId) := by
  have h0 : ("" : String).isEmpty = true := by decide
  refine ⟨fun d hd hne => ?_, fun hd w hw hne => ?_, fun hd hw => ?_⟩
  · subst hd
    simp [webhookDedupKey, strTruthy, String.isEmpty_iff, hne]
  · subst hw
    rcases hd with h | h <;> subst h <;>
      simp [webhookDedupKey, strTruthy, String.isEmpty_iff, hne, h0]
  · rcases hd with h | h <;> rcases hw with h2 | h2 <;> subst h <;> subst h2 <;>
      simp [webhookDedupKey, strTruthy, h0]

/-- Witness for C8 at concrete inputs covering all three precedence tiers. -/
theorem claim_C8_key_precedence_witness :
    webhookDedupKey (some "d9") (some "w3") "Issue" "create" "i" = "delivery:" ++ "d9" ∧
    webhookDedupKey none (some "w3") "Issue" "create" "i" = "webhook:" ++ "w3" ∧
    webhookDedupKey none none "Issue" "create" "i" = getDeduplicationKey "Issue" "create" "i" := by
  refine ⟨(claim_C8_key_precedence (some "d9") (some "w3") "Issue" "create" "i").1 "d9" rfl
      (by decide),
    (claim_C8_key_precedence none (some "w3") "Issue" "create" "i").2.1 (.inl rfl) "w3" rfl
      (by decide),
    (claim_C8_key_precedence none none "Issue" "create" "i").2.2 (.inl rfl) (.inl rfl)⟩

/-! ## Claim C3 -/

/-- Counterexample for claim C3 as stated: the label matcher also returns
true when the operation is `remove` and the label is present — the code
only special-cases `update`, so `remove` events pass like `create` ones,
contradicting "returns true only if the operation is create, or the
operation is update and the label was newly added". -/
theorem claim_C3_counterexample :
    labelMatches { type := .label, value := "review", action := .review }
        { eventType := .issue, action := .remove,
          issue := { id := "i1", labels := some ["review"] } } = true ∧
    LinearAction.remove ≠ LinearAction.create ∧
    LinearAction.remove ≠ LinearAction.update := by
  exact ⟨by decide, by decide, by decide⟩

/-- Claim C3 (amended): the label matcher returns true only if the
operation is `create` or `remove` (the code gates only updates), or the
operation is `update` and the wanted label id is present in the current
label ids and absent from the previous snapshot; on an update with no
previous-label-ids snapshot it returns false regardless of label
presence. -/
theorem claim_C3_label_detector (trigger : TriggerConfig) (ctx : TriggerContext) :
    (labelMatches trigger ctx = true →
      ctx.action = .create ∨ ctx.action = .remove ∨
        (ctx.action = .update ∧ ∃ prev lid,
          ctx.issue.updatedFromLabelIds = some prev ∧
          wantedLabelIdOf trigger ctx.issue = some lid ∧
          lid ∈ currentLabelIdsOf ctx.issue ∧ lid ∉ prev)) ∧
    (ctx.action = .update → ctx.issue.updatedFromLabelIds = none →
      labelMatches trigger ctx = false) := by
  constructor
  · intro h
    cases hact : ctx.action with
    | create => exact .inl rfl
    | remove => exact .inr (.inl rfl)
    | update =>
      refine .inr (.inr ⟨rfl, ?_⟩)
      unfold labelMatches at h
      rw [hact] at h
      split at h
      · exact absurd h (by simp)
      · dsimp only at h
        split at h
        · exact absurd h (by simp)
        · split at h
          · exact absurd h (by simp)
          · split at h
            · exact absurd (by rfl : LinearAction.update = .update) (by assumption)
            · cases hprev : ctx.issue.updatedFromLabelIds with
              | none => rw [hprev] at h; exact absurd h (by simp)
              | some prev =>
                rw [hprev] at h
                cases hlid : wantedLabelIdOf trigger ctx.issue with
                | none => rw [hlid] at h; exact absurd h (by simp)
                | some lid =>
                  rw [hlid] at h
                  rw [Bool.and_eq_true, Bool.not_eq_true'] at h
                  refine ⟨prev, lid, rfl, rfl, ?_, ?_⟩
                  · have := h.2
                    exact List.elem_iff.mp this
                  · intro hmem
                    have hc := List.elem_iff.mpr hmem
                    have h1 := h.1
                    simp only [List.contains] at h1
                    rw [h1] at hc
                    exact Bool.false_ne_true hc
  · intro hact hnone
    unfold labelMatches
    rw [hact, hnone]
    simp

/-- Witness for C3 at a concrete input: an update event with no
previous-label-ids snapshot does not fire even though the label is
present. -/
theorem claim_C3_label_detector_witness :
    labelMatches { type := .label, value := "x", action := .quick }
        { eventType := .issue, action := .update,
          issue := { id := "i", labels := some ["x"] } } = false :=
  (claim_C3_label_detector _ _).2 rfl rfl

/-! ## Claim C4 -/

/-- Counterexample for claim C4 as stated: a rule with no `on` field is
returned for an event although its allowed-operations field contains
nothing (the code only applies the gate when `on` is present and truthy). -/
theorem claim_C4_counterexample :
    matchTriggers [{ type := .label, value := "x", action := .quick }]
        { eventType := .issue, action := .create,
          issue := { id := "i", labels := some ["x"] } } =
      some ⟨{ type := .label, value := "x", action := .quick }, .quick⟩ ∧
    TriggerConfig.onOps { type := .label, value := "x", action := .quick } = none := by
  exact ⟨by decide, rfl⟩

/-- Claim C4 (amended): `matchTriggers` returns exactly the first rule (in
configured order) accepted by `ruleAccepts` — whose `on` field, when
present, contains the event operation (a rule without `on` passes the gate
for every operation) and whose kind-specific evaluator accepts the
event — and a rule acceptance decides the result independently of all
later rules; the function is pure (a Lean function of its inputs). -/
theorem claim_C4_first_match :
    (∀ (rules : List TriggerConfig) (ctx : TriggerContext),
      matchTriggers rules ctx =
        (rules.find? (fun r => ruleAccepts r ctx)).map (fun r => ⟨r, r.action⟩)) ∧
    (∀ (r : TriggerConfig) (rest : List TriggerConfig) (ctx : TriggerContext),
      ruleAccepts r ctx = true → matchTriggers (r :: rest) ctx = some ⟨r, r.action⟩) := by
  have hmain : ∀ (rules : List TriggerConfig) (ctx : TriggerContext),
      matchTriggers rules ctx =
        (rules.find? (fun r => ruleAccepts r ctx)).map (fun r => ⟨r, r.action⟩) := by
    intro rules ctx
    induction rules with
    | nil => simp [matchTriggers]
    | cons r rest ih =>
      obtain ⟨ev, hev⟩ : ∃ ev, getTriggerEvaluator r.type = some ev := by
        cases r.type <;> exact ⟨_, rfl⟩
      rcases honOps : r.onOps with _ | ops
      · by_cases he : ev r ctx = true
        · simp [matchTriggers, ruleAccepts, honOps, hev, he, List.find?_cons, ih]
        · simp only [Bool.not_eq_true] at he
          simp [matchTriggers, ruleAccepts, honOps, hev, he, List.find?_cons, ih]
      · by_cases hmem : ctx.action ∈ ops
        · by_cases he : ev r ctx = true
          · simp [matchTriggers, ruleAccepts, honOps, hev, hmem, he, List.find?_cons, ih]
          · simp only [Bool.not_eq_true] at he
            simp [matchTriggers, ruleAccepts, honOps, hev, hmem, he, List.find?_cons, ih]
        · simp [matchTriggers, ruleAccepts, honOps, hev, hmem, List.find?_cons, ih]
  refine ⟨hmain, fun r rest ctx hr => ?_⟩
  rw [hmain]
  simp [List.find?_cons, hr]

/-- Witness for C4 at a concrete input: two rules match the same event and
only the first is returned. -/
theorem claim_C4_first_match_witness :
    matchTriggers
        [{ type := .label, value := "x", action := .quick, onOps := some [.create] },
         { type := .label, value := "x", action := .review, onOps := some [.create] }]
        { eventType := .issue, action := .create,
          issue := { id := "i", labels := some ["x"] } } =
      some ⟨{ type := .label, value := "x", action := .quick, onOps := some [.create] },
        .quick⟩ :=
  claim_C4_first_match.2 _ _ _ (by decide)

/-! ## Dedup-map lemmas -/

theorem lookupTs_mapSet_self (m : DedupMap) (k : String) (v : Nat) :
    lookupTs (mapSet m k v) k = some v := by
  induction m with
  | nil => simp [mapSet, lookupTs, List.find?]
  | cons e rest ih =>
    by_cases he : e.1 = k
    · simp [mapSet, he, lookupTs, List.find?]
    · simp only [mapSet, if_neg he]
      simpa [lookupTs, List.find?, he] using ih

theorem mem_sweepExpired (m : DedupMap) (now window : Nat) (e : String × Nat) :
    e ∈ sweepExpired m now window ↔ e ∈ m ∧ ¬(now - e.2 > window) := by
  simp [sweepExpired, List.mem_filter]

theorem linearSeen_hit (m : DedupMap) (key : String) (now t : Nat)
    (hlook : lookupTs m key = some t) (hne : t ≠ 0)
    (hlt : now - t < DEDUP_WINDOW_MS) : linearSeen m key now = (true, m) := by
  simp [linearSeen, isDuplicateEvent, freshHit, hlook, hne, hlt]

theorem linearSeen_miss_stale (m : DedupMap) (key : String) (now t : Nat)
    (hlook : lookupTs m key = some t) (hge : ¬(now - t < DEDUP_WINDOW_MS)) :
    (linearSeen m key now).1 = false := by
  simp [linearSeen, isDuplicateEvent, freshHit, hlook, hge]

theorem githubSeen_hit (m : DedupMap) (key : String) (now t : Nat)
    (hlook : lookupTs m key = some t) (hne : t ≠ 0)
    (hlt : now - t < GITHUB_DEDUP_WINDOW_MS) :
    isDuplicateGithubDelivery m key now = (true, m) := by
  simp [isDuplicateGithubDelivery, freshHit, hlook, hne, hlt]

theorem githubSeen_miss_stale (m : DedupMap) (key : String) (now t : Nat)
    (hlook : lookupTs m key = some t) (hge : ¬(now - t < GITHUB_DEDUP_WINDOW_MS)) :
    (isDuplicateGithubDelivery m key now).1 = false := by
  simp [isDuplicateGithubDelivery, freshHit, hlook, hge]

/-! ## Claim C6 -/

/-- Claim C6: for every key unseen so far — the first seen-check returns
false and records the key at the current time; a second check within the
window (30 s Linear, 5 min GitHub) returns true and leaves the map (hence
the stored timestamp) untouched; a third check once the window has
elapsed returns false again; the eviction sweep keeps exactly the
unexpired entries; and any key stored within the window is always
reported seen. Linear splits `seen` into `isDuplicateEvent` plus
`markEventProcessed` (composed here as the handler does); GitHub does
both in `isDuplicateGithubDelivery`. Timestamps are positive (a zero
`Date.now()` would be falsy in JS). -/
theorem claim_C6_dedup :
    (∀ (m0 : DedupMap) (key : String) (t1 t2 t3 : Nat),
      lookupTs m0 key = none → 0 < t1 →
      t2 - t1 < DEDUP_WINDOW_MS → DEDUP_WINDOW_MS ≤ t3 - t1 →
      (linearSeen m0 key t1).1 = false ∧
      lookupTs (linearSeen m0 key t1).2 key = some t1 ∧
      (linearSeen (linearSeen m0 key t1).2 key t2).1 = true ∧
      (linearSeen (linearSeen m0 key t1).2 key t2).2 = (linearSeen m0 key t1).2 ∧
      (linearSeen (linearSeen m0 key t1).2 key t3).1 = false) ∧
    (∀ (m0 : DedupMap) (key : String) (t1 t2 t3 : Nat),
      lookupTs m0 key = none → 0 < t1 →
      t2 - t1 < GITHUB_DEDUP_WINDOW_MS → GITHUB_DEDUP_WINDOW_MS ≤ t3 - t1 →
      (isDuplicateGithubDelivery m0 key t1).1 = false ∧
      lookupTs (isDuplicateGithubDelivery m0 key t1).2 key = some t1 ∧
      (isDuplicateGithubDelivery (isDuplicateGithubDelivery m0 key t1).2 key t2).1 = true ∧
      (isDuplicateGithubDelivery (isDuplicateGithubDelivery m0 key t1).2 key t2).2 =
        (isDuplicateGithubDelivery m0 key t1).2 ∧
      (isDuplicateGithubDelivery (isDuplicateGithubDelivery m0 key t1).2 key t3).1 = false) ∧
    (∀ (m : DedupMap) (now window : Nat) (e : String × Nat),
      e ∈ sweepExpired m now window ↔ e ∈ m ∧ ¬(now - e.2 > window)) ∧
    (∀ (m : DedupMap) (key : String) (now t : Nat),
      lookupTs m key = some t → 0 < t → now - t < DEDUP_WINDOW_MS →
      (isDuplicateEvent m key now).1 = true) ∧
    (∀ (m : DedupMap) (key : String) (now t : Nat),
      lookupTs m key = some t → 0 < t → now - t < GITHUB_DEDUP_WINDOW_MS →
      (isDuplicateGithubDelivery m key now).1 = true) := by
  refine ⟨?_, ?_, mem_sweepExpired, ?_, ?_⟩
  · intro m0 key t1 t2 t3 hnone ht1 ht2 ht3
    have hne : t1 ≠ 0 := Nat.pos_iff_ne_zero.mp ht1
    have hm1 : (linearSeen m0 key t1).2 =
        mapSet (if m0.length > 1000 then sweepExpired m0 t1 DEDUP_WINDOW_MS else m0)
          key t1 := by
      simp [linearSeen, isDuplicateEvent, freshHit, hnone, markEventProcessed]
    have hlook1 : lookupTs (linearSeen m0 key t1).2 key = some t1 := by
      rw [hm1]
      exact lookupTs_mapSet_self _ _ _
    have hnotlt : ¬(t3 - t1 < DEDUP_WINDOW_MS) := by omega
    have hhit := linearSeen_hit _ key t2 t1 hlook1 hne ht2
    refine ⟨by simp [linearSeen, isDuplicateEvent, freshHit, hnone], hlook1, ?_, ?_, ?_⟩
    · rw [hhit]
    · rw [hhit]
    · exact linearSeen_miss_stale _ key t3 t1 hlook1 hnotlt
  · intro m0 key t1 t2 t3 hnone ht1 ht2 ht3
    have hne : t1 ≠ 0 := Nat.pos_iff_ne_zero.mp ht1
    have hm1 : (isDuplicateGithubDelivery m0 key t1).2 =
        mapSet (if m0.length > 2000 then sweepExpired m0 t1 GITHUB_DEDUP_WINDOW_MS else m0)
          key t1 := by
      simp [isDuplicateGithubDelivery, freshHit, hnone]
    have hlook1 : lookupTs (isDuplicateGithubDelivery m0 key t1).2 key = some t1 := by
      rw [hm1]
      exact lookupTs_mapSet_self _ _ _
    have hnotlt : ¬(t3 - t1 < GITHUB_DEDUP_WINDOW_MS) := by omega
    have hhit := githubSeen_hit _ key t2 t1 hlook1 hne ht2
    refine ⟨by simp [isDuplicateGithubDelivery, freshHit, hnone], hlook1, ?_, ?_, ?_⟩
    · rw [hhit]
    · rw [hhit]
    · exact githubSeen_miss_stale _ key t3 t1 hlook1 hnotlt
  · intro m key now t hlook ht hlt
    simp [isDuplicateEvent, freshHit, hlook, Nat.pos_iff_ne_zero.mp ht, hlt]
  · intro m key now t hlook ht hlt
    simp [isDuplicateGithubDelivery, freshHit, hlook, Nat.pos_iff_ne_zero.mp ht, hlt]

/-- Witness for C6: the seen/record/expire sequence at concrete times for
both dedup guards. -/
theorem claim_C6_dedup_witness :
    ((linearSeen [] "k" 5).1 = false ∧
      lookupTs (linearSeen [] "k" 5).2 "k" = some 5 ∧
      (linearSeen (linearSeen [] "k" 5).2 "k" 10).1 = true ∧
      (linearSeen (linearSeen [] "k" 5).2 "k" 10).2 = (linearSeen [] "k" 5).2 ∧
      (linearSeen (linearSeen [] "k" 5).2 "k" 30005).1 = false) ∧
    ((isDuplicateGithubDelivery [] "g" 5).1 = false ∧
      lookupTs (isDuplicateGithubDelivery [] "g" 5).2 "g" = some 5 ∧
      (isDuplicateGithubDelivery (isDuplicateGithubDelivery [] "g" 5).2 "g" 10).1 = true ∧
      (isDuplicateGithubDelivery (isDuplicateGithubDelivery [] "g" 5).2 "g" 10).2 =
        (isDuplicateGithubDelivery [] "g" 5).2 ∧
      (isDuplicateGithubDelivery (isDuplicateGithubDelivery [] "g" 5).2 "g" 300005).1 =
        false) :=
  ⟨claim_C6_dedup.1 [] "k" 5 10 30005 rfl (by decide) (by decide) (by decide),
   claim_C6_dedup.2.1 [] "g" 5 10 300005 rfl (by decide) (by decide) (by decide)⟩

/-! ## Claim C10 -/

/-- Counterexample for claim C10 as stated: a correctly signed payload
whose top-level schema parse succeeds (the `data` union parsed as
comment-shaped) but whose per-type issue validation fails is answered 400
(`Invalid issue data`) only after the dedup key has been recorded — so
not every schema-validation 400 leaves the cache unchanged. -/
theorem claim_C10_counterexample :
    webhookHandler [] true none
        (some { action := .create, ptype := .issue,
                data := .commentD { id := "c1", body := "hi", issueId := "i1" } })
        [] 7 =
      (.invalidIssueData, [("Issue:create:c1", 7)], none) ∧
    isBadRequest .invalidIssueData = true ∧
    ([("Issue:create:c1", 7)] : DedupMap) ≠ ([] : DedupMap) := by
  refine ⟨by decide, rfl, by decide⟩

/-- Claim C10 (amended): a request failing signature verification (401) or
the top-level payload parse (400) leaves the dedup cache unchanged and
dispatches no workflow, so a later correctly signed delivery of the same
event is still processed; once signature and top-level parse pass and the
event is not a duplicate, the key is recorded — before the per-type
issue/comment data validation, whose failure (also a 400) therefore
leaves the key in the cache; a duplicate is ignored without re-recording. -/
theorem claim_C10_webhook_gating :
    (∀ (triggers : List TriggerConfig) (deliveryId : Option String)
        (parsed : Option WebhookPayload) (m : DedupMap) (now : Nat),
      webhookHandler triggers false deliveryId parsed m now = (.invalidSignature, m, none)) ∧
    (∀ (triggers : List TriggerConfig) (deliveryId : Option String)
        (m : DedupMap) (now : Nat),
      webhookHandler triggers true deliveryId none m now = (.invalidPayload, m, none)) ∧
    (∀ (triggers : List TriggerConfig) (deliveryId : Option String)
        (payload : WebhookPayload) (m : DedupMap) (now : Nat),
      (isDuplicateEvent m
        (webhookDedupKey deliveryId payload.webhookId (eventTypeStr payload.ptype)
          (actionStr payload.action) payload.data.dataId) now).1 = false →
      lookupTs (webhookHandler triggers true deliveryId (some payload) m now).2.1
        (webhookDedupKey deliveryId payload.webhookId (eventTypeStr payload.ptype)
          (actionStr payload.action) payload.data.dataId) = some now) ∧
    (∀ (triggers : List TriggerConfig) (deliveryId : Option String)
        (payload : WebhookPayload) (m : DedupMap) (now : Nat),
      (isDuplicateEvent m
        (webhookDedupKey deliveryId payload.webhookId (eventTypeStr payload.ptype)
          (actionStr payload.action) payload.data.dataId) now).1 = true →
      webhookHandler triggers true deliveryId (some payload) m now =
        (.duplicateIgnored,
         (isDuplicateEvent m
           (webhookDedupKey deliveryId payload.webhookId (eventTypeStr payload.ptype)
             (actionStr payload.action) payload.data.dataId) now).2,
         none)) := by
  refine ⟨fun triggers deliveryId parsed m now => by simp [webhookHandler],
    fun triggers deliveryId m now => by simp [webhookHandler],
    fun triggers deliveryId payload m now hdup => ?_,
    fun triggers deliveryId payload m now hdup => by simp [webhookHandler, hdup]⟩
  simp only [webhookHandler, Bool.not_true, Bool.false_eq_true, if_false, hdup]
  repeat' split
  all_goals exact lookupTs_mapSet_self _ _ _

/-- Witness for C10: the key is recorded for a concrete accepted event. -/
theorem claim_C10_webhook_gating_witness :
    lookupTs (webhookHandler [] true none
        (some { action := .create, ptype := .issue,
                data := .issueD { id := "i1", title := "t" } }) [] 7).2.1
      (webhookDedupKey none none "Issue" "create" "i1") = some 7 :=
  claim_C10_webhook_gating.2.2.1 [] none _ [] 7 (by decide)

/-! ## Run-model lemmas -/

theorem handleEvent_offset (policy : PermissionPolicy) (sid : String)
    (st : RunState) (tr : RunTrace) (e : SessionEvent) :
    ((handleEvent policy sid st tr e).1).offset = st.offset ∧
    ((handleEvent policy sid st tr e).1).processed = st.processed := by
  cases e <;> simp [handleEvent]

theorem handleEvent_filesModified (policy : PermissionPolicy) (sid : String)
    (st : RunState) (tr : RunTrace) (e : SessionEvent) :
    ((handleEvent policy sid st tr e).1).filesModified =
      eventFilesUpdate st.filesModified e := by
  cases e <;> simp [handleEvent, eventFilesUpdate]

theorem handleEvent_none_of_notEnded (policy : PermissionPolicy) (sid : String)
    (st : RunState) (tr : RunTrace) (e : SessionEvent)
    (h : eventNotEnded e = true) : (handleEvent policy sid st tr e).2.2 = none := by
  cases e <;> simp_all [handleEvent, eventNotEnded]

theorem handleEvent_latches (policy : PermissionPolicy) (sid : String)
    (st : RunState) (tr : RunTrace) (e : SessionEvent)
    (h : eventNonTerminal e = true) :
    ((handleEvent policy sid st tr e).1).sawFailed = st.sawFailed ∧
    ((handleEvent policy sid st tr e).1).sawCompleted = st.sawCompleted := by
  cases e with
  | itemCompleted item =>
    simp only [eventNonTerminal] at h
    cases hstat : item.bind (fun it => it.status) with
    | none => simp [handleEvent, hstat]
    | some s =>
      rw [hstat] at h
      simp only [Bool.not_eq_true', Bool.or_eq_false_iff] at h
      have hs1 : s ≠ "failed" := by simpa using h.1
      have hs2 : s ≠ "completed" := by simpa using h.2
      simp [handleEvent, hstat, hs1, hs2]
  | sessionEnded reason message => simp [eventNonTerminal] at h
  | sessionStarted => simp [handleEvent]
  | permissionRequested pid metadata => simp [handleEvent]
  | questionRequested qid => simp [handleEvent]
  | otherEvent => simp [handleEvent]

theorem handleEvent_trace (policy : PermissionPolicy) (sid : String)
    (st : RunState) (tr : RunTrace) (e : SessionEvent) :
    ((handleEvent policy sid st tr e).2.1).terminateCalls = tr.terminateCalls ∧
    ((handleEvent policy sid st tr e).2.1).fetches = tr.fetches ∧
    ((handleEvent policy sid st tr e).2.1).streamAttempts = tr.streamAttempts ∧
    ((handleEvent policy sid st tr e).2.1).delays = tr.delays := by
  cases e <;> simp [handleEvent]

theorem processEvents_processed_inv (policy : PermissionPolicy) (sid : String)
    (l : List SessionEvent) : ∀ (st : RunState) (tr : RunTrace),
    st.processed = List.range st.offset →
    ((processEvents policy sid st tr l).1).processed =
      List.range ((processEvents policy sid st tr l).1).offset := by
  induction l with
  | nil => intro st tr h; simpa [processEvents] using h
  | cons e rest ih =>
    intro st tr h
    have h0 : ({ st with offset := st.offset + 1, processed := st.processed ++ [st.offset] } : RunState).processed = List.range ({ st with offset := st.offset + 1, processed := st.processed ++ [st.offset] } : RunState).offset := by
      simp [h, List.range_succ]
    simp only [processEvents]
    rcases hh : handleEvent policy sid
        { st with offset := st.offset + 1, processed := st.processed ++ [st.offset] }
        tr e with ⟨st1, tr1, res⟩
    have hoff := handleEvent_offset policy sid
      { st with offset := st.offset + 1, processed := st.processed ++ [st.offset] } tr e
    rw [hh] at hoff
    cases res with
    | some r =>
      simp only
      rw [hoff.1, hoff.2]
      exact h0
    | none =>
      simp only
      exact ih st1 tr1 (by rw [hoff.1, hoff.2]; exact h0)

theorem processEvents_nonterminal (policy : PermissionPolicy) (sid : String)
    (l : List SessionEvent) (hl : ∀ e ∈ l, eventNonTerminal e = true) :
    ∀ (st : RunState) (tr : RunTrace),
    (processEvents policy sid st tr l).2.2 = none ∧
    ((processEvents policy sid st tr l).1).sawFailed = st.sawFailed ∧
    ((processEvents policy sid st tr l).1).sawCompleted = st.sawCompleted := by
  induction l with
  | nil => intro st tr; simp [processEvents]
  | cons e rest ih =>
    intro st tr
    have he : eventNonTerminal e = true := hl e (List.mem_cons_self e rest)
    have hne : eventNotEnded e = true := by
      cases e <;> simp_all [eventNonTerminal, eventNotEnded]
    have hrest : ∀ x ∈ rest, eventNonTerminal x = true :=
      fun x hx => hl x (List.mem_cons_of_mem e hx)
    simp only [processEvents]
    rcases hh : handleEvent policy sid
        { st with offset := st.offset + 1, processed := st.processed ++ [st.offset] }
        tr e with ⟨st1, tr1, res⟩
    have hnone := handleEvent_none_of_notEnded policy sid
      { st with offset := st.offset + 1, processed := st.processed ++ [st.offset] } tr e hne
    rw [hh] at hnone
    have hlat := handleEvent_latches policy sid
      { st with offset := st.offset + 1, processed := st.processed ++ [st.offset] } tr e he
    rw [hh] at hlat
    subst hnone
    simp only
    have := ih hrest st1 tr1
    exact ⟨this.1, by rw [this.2.1, hlat.1], by rw [this.2.2, hlat.2]⟩

theorem processEvents_none_of_notEnded (policy : PermissionPolicy) (sid : String)
    (l : List SessionEvent) (hl : ∀ e ∈ l, eventNotEnded e = true) :
    ∀ (st : RunState) (tr : RunTrace),
    (processEvents policy sid st tr l).2.2 = none := by
  induction l with
  | nil => intro st tr; simp [processEvents]
  | cons e rest ih =>
    intro st tr
    have he : eventNotEnded e = true := hl e (List.mem_cons_self e rest)
    have hrest : ∀ x ∈ rest, eventNotEnded x = true :=
      fun x hx => hl x (List.mem_cons_of_mem e hx)
    simp only [processEvents]
    rcases hh : handleEvent policy sid
        { st with offset := st.offset + 1, processed := st.processed ++ [st.offset] }
        tr e with ⟨st1, tr1, res⟩
    have hnone := handleEvent_none_of_notEnded policy sid
      { st with offset := st.offset + 1, processed := st.processed ++ [st.offset] } tr e he
    rw [hh] at hnone
    subst hnone
    simp only
    exact ih hrest st1 tr1

theorem processEvents_trace (policy : PermissionPolicy) (sid : String)
    (l : List SessionEvent) : ∀ (st : RunState) (tr : RunTrace),
    ((processEvents policy sid st tr l).2.1).terminateCalls = tr.terminateCalls ∧
    ((processEvents policy sid st tr l).2.1).fetches = tr.fetches ∧
    ((processEvents policy sid st tr l).2.1).streamAttempts = tr.streamAttempts ∧
    ((processEvents policy sid st tr l).2.1).delays = tr.delays := by
  induction l with
  | nil => intro st tr; simp [processEvents]
  | cons e rest ih =>
    intro st tr
    simp only [processEvents]
    rcases hh : handleEvent policy sid
        { st with offset := st.offset + 1, processed := st.processed ++ [st.offset] }
        tr e with ⟨st1, tr1, res⟩
    have htr := handleEvent_trace policy sid
      { st with offset := st.offset + 1, processed := st.processed ++ [st.offset] } tr e
    rw [hh] at htr
    cases res with
    | some r => simpa using htr
    | none =>
      simp only
      have := ih st1 tr1
      exact ⟨by rw [this.1, htr.1], by rw [this.2.1, htr.2.1],
        by rw [this.2.2.1, htr.2.2.1], by rw [this.2.2.2, htr.2.2.2]⟩

theorem page_subset_events (env : SandboxEnv) (offset : Nat) :
    ∀ e ∈ (getEventsPage env offset 100).1, e ∈ env.events := by
  intro e he
  simp only [getEventsPage] at he
  exact List.drop_subset _ _ (List.take_subset _ _ he)

theorem pollRounds_processed_inv (env : SandboxEnv) (policy : PermissionPolicy)
    (sid : String) : ∀ (fuel : Nat) (st : RunState) (tr : RunTrace),
    st.processed = List.range st.offset →
    ((pollRounds env policy sid fuel st tr).1).processed =
      List.range ((pollRounds env policy sid fuel st tr).1).offset := by
  intro fuel
  induction fuel with
  | zero => intro st tr h; simpa [pollRounds] using h
  | succ n ih =>
    intro st tr h
    simp only [pollRounds]
    rcases hh : processEvents policy sid st
        { tr with fetches := tr.fetches ++ [(st.offset, 100)] }
        (getEventsPage env st.offset 100).1 with ⟨st1, tr1, res⟩
    have hinv := processEvents_processed_inv policy sid (getEventsPage env st.offset 100).1
      st { tr with fetches := tr.fetches ++ [(st.offset, 100)] } h
    rw [hh] at hinv
    dsimp only at hinv
    cases res with
    | some r => simpa using hinv
    | none =>
      simp only
      by_cases hlen : (getEventsPage env st.offset 100).1.length = 0
      · simp [hlen, hinv]
      · by_cases hmore : (getEventsPage env st.offset 100).2 = true
        · simp only [hlen, if_false, hmore, if_true]
          exact ih st1 tr1 hinv
        · simp only [Bool.not_eq_true] at hmore
          simp [hlen, hmore, hinv]

theorem pollRounds_nonterminal (env : SandboxEnv) (policy : PermissionPolicy)
    (sid : String) (henv : ∀ e ∈ env.events, eventNonTerminal e = true) :
    ∀ (fuel : Nat) (st : RunState) (tr : RunTrace),
    (pollRounds env policy sid fuel st tr).2.2 = none ∧
    ((pollRounds env policy sid fuel st tr).1).sawFailed = st.sawFailed ∧
    ((pollRounds env policy sid fuel st tr).1).sawCompleted = st.sawCompleted := by
  intro fuel
  induction fuel with
  | zero => intro st tr; simp [pollRounds]
  | succ n ih =>
    intro st tr
    have hpage : ∀ e ∈ (getEventsPage env st.offset 100).1, eventNonTerminal e = true :=
      fun e he => henv e (page_subset_events env st.offset e he)
    simp only [pollRounds]
    rcases hh : processEvents policy sid st
        { tr with fetches := tr.fetches ++ [(st.offset, 100)] }
        (getEventsPage env st.offset 100).1 with ⟨st1, tr1, res⟩
    have hnt := processEvents_nonterminal policy sid (getEventsPage env st.offset 100).1
      hpage st { tr with fetches := tr.fetches ++ [(st.offset, 100)] }
    rw [hh] at hnt
    dsimp only at hnt
    obtain ⟨hres, hf, hc⟩ := hnt
    subst hres
    simp only
    by_cases hlen : (getEventsPage env st.offset 100).1.length = 0
    · simp [hlen, hf, hc]
    · by_cases hmore : (getEventsPage env st.offset 100).2 = true
      · simp only [hlen, if_false, hmore, if_true]
        have := ih st1 tr1
        exact ⟨this.1, by rw [this.2.1, hf], by rw [this.2.2, hc]⟩
      · simp only [Bool.not_eq_true] at hmore
        simp [hlen, hmore, hf, hc]

theorem pollRounds_trace (env : SandboxEnv) (policy : PermissionPolicy)
    (sid : String) : ∀ (fuel : Nat) (st : RunState) (tr : RunTrace),
    ((pollRounds env policy sid fuel st tr).2.1).terminateCalls = tr.terminateCalls ∧
    ((pollRounds env policy sid fuel st tr).2.1).streamAttempts = tr.streamAttempts ∧
    ((pollRounds env policy sid fuel st tr).2.1).delays = tr.delays ∧
    (∀ f ∈ ((pollRounds env policy sid fuel st tr).2.1).fetches,
      f ∈ tr.fetches ∨ f.2 = 100) := by
  intro fuel
  induction fuel with
  | zero => intro st tr; exact ⟨rfl, rfl, rfl, fun f hf => .inl hf⟩
  | succ n ih =>
    intro st tr
    simp only [pollRounds]
    rcases hh : processEvents policy sid st
        { tr with fetches := tr.fetches ++ [(st.offset, 100)] }
        (getEventsPage env st.offset 100).1 with ⟨st1, tr1, res⟩
    have htr := processEvents_trace policy sid (getEventsPage env st.offset 100).1
      st { tr with fetches := tr.fetches ++ [(st.offset, 100)] }
    rw [hh] at htr
    have hmem1 : ∀ f ∈ tr1.fetches, f ∈ tr.fetches ∨ f.2 = 100 := by
      intro f hf
      rw [htr.2.1] at hf
      simp only [List.mem_append, List.mem_singleton] at hf
      rcases hf with hf | hf
      · exact .inl hf
      · subst hf; exact .inr rfl
    cases res with
    | some r => exact ⟨htr.1, htr.2.2.1, htr.2.2.2, hmem1⟩
    | none =>
      simp only
      by_cases hlen : (getEventsPage env st.offset 100).1.length = 0
      · simp only [hlen, if_true]
        exact ⟨htr.1, htr.2.2.1, htr.2.2.2, hmem1⟩
      · by_cases hmore : (getEventsPage env st.offset 100).2 = true
        · simp only [hlen, if_false, hmore, if_true]
          have hr := ih st1 tr1
          refine ⟨by rw [hr.1, htr.1], by rw [hr.2.1, htr.2.2.1],
            by rw [hr.2.2.1, htr.2.2.2], fun f hf => ?_⟩
          rcases hr.2.2.2 f hf with h1 | h1
          · exact hmem1 f h1
          · exact .inr h1
        · simp only [Bool.not_eq_true] at hmore
          simp only [hlen, if_false, hmore, Bool.false_eq_true, if_false]
          exact ⟨htr.1, htr.2.2.1, htr.2.2.2, hmem1⟩

theorem streamPhase_processed_inv (env : SandboxEnv) (policy : PermissionPolicy)
    (sid : String) (st : RunState) (tr : RunTrace)
    (h : st.processed = List.range st.offset) :
    ((streamPhase env policy sid st tr).1).processed =
      List.range ((streamPhase env policy sid st tr).1).offset := by
  simp only [streamPhase]
  rcases hh : processEvents policy sid st
      { tr with streamAttempts := tr.streamAttempts + 1 }
      (env.events.take env.streamLen) with ⟨st1, tr2, res⟩
  have hinv := processEvents_processed_inv policy sid (env.events.take env.streamLen)
    st { tr with streamAttempts := tr.streamAttempts + 1 } h
  rw [hh] at hinv
  cases res with
  | some r => simpa using hinv
  | none =>
    cases henv : env.streamErr with
    | none => simpa using hinv
    | some b => cases b <;> simpa using hinv

theorem streamPhase_nonterminal (env : SandboxEnv) (policy : PermissionPolicy)
    (sid : String) (henv : ∀ e ∈ env.events, eventNonTerminal e = true)
    (st : RunState) (tr : RunTrace) :
    (streamPhase env policy sid st tr).2.2.1 = none ∧
    ((streamPhase env policy sid st tr).1).sawFailed = st.sawFailed ∧
    ((streamPhase env policy sid st tr).1).sawCompleted = st.sawCompleted := by
  have hpre : ∀ e ∈ env.events.take env.streamLen, eventNonTerminal e = true :=
    fun e he => henv e (List.take_subset _ _ he)
  simp only [streamPhase]
  rcases hh : processEvents policy sid st
      { tr with streamAttempts := tr.streamAttempts + 1 }
      (env.events.take env.streamLen) with ⟨st1, tr2, res⟩
  have hnt := processEvents_nonterminal policy sid (env.events.take env.streamLen) hpre
    st { tr with streamAttempts := tr.streamAttempts + 1 }
  rw [hh] at hnt
  obtain ⟨hres, hf, hc⟩ := hnt
  subst hres
  cases henv2 : env.streamErr with
  | none => exact ⟨rfl, hf, hc⟩
  | some b => cases b <;> exact ⟨rfl, hf, hc⟩

theorem streamPhase_trace (env : SandboxEnv) (policy : PermissionPolicy)
    (sid : String) (st : RunState) (tr : RunTrace) :
    ((streamPhase env policy sid st tr).2.1).terminateCalls = tr.terminateCalls ∧
    ((streamPhase env policy sid st tr).2.1).streamAttempts = tr.streamAttempts + 1 ∧
    ((streamPhase env policy sid st tr).2.1).delays = tr.delays ∧
    ((streamPhase env policy sid st tr).2.1).fetches = tr.fetches := by
  simp only [streamPhase]
  rcases hh : processEvents policy sid st
      { tr with streamAttempts := tr.streamAttempts + 1 }
      (env.events.take env.streamLen) with ⟨st1, tr2, res⟩
  have htr := processEvents_trace policy sid (env.events.take env.streamLen)
    st { tr with streamAttempts := tr.streamAttempts + 1 }
  rw [hh] at htr
  cases res with
  | some r => exact ⟨htr.1, htr.2.2.1, htr.2.2.2, htr.2.1⟩
  | none =>
    cases henv : env.streamErr with
    | none => exact ⟨htr.1, htr.2.2.1, htr.2.2.2, htr.2.1⟩
    | some b => cases b <;> exact ⟨htr.1, htr.2.2.1, htr.2.2.2, htr.2.1⟩

theorem streamPhase_fatal_imp (env : SandboxEnv) (policy : PermissionPolicy)
    (sid : String) (st : RunState) (tr : RunTrace)
    (h : (streamPhase env policy sid st tr).2.2.2 = true) :
    env.streamErr = some false := by
  revert h
  simp only [streamPhase]
  rcases hh : processEvents policy sid st
      { tr with streamAttempts := tr.streamAttempts + 1 }
      (env.events.take env.streamLen) with ⟨st1, tr2, res⟩
  cases res with
  | some r => simp
  | none =>
    cases henv : env.streamErr with
    | none => simp
    | some b => cases b <;> simp [henv]

theorem streamPhase_fatal_of_err (env : SandboxEnv) (policy : PermissionPolicy)
    (sid : String) (st : RunState) (tr : RunTrace)
    (herr : env.streamErr = some false)
    (hne : ∀ e ∈ env.events.take env.streamLen, eventNotEnded e = true) :
    (streamPhase env policy sid st tr).2.2.2 = true := by
  simp only [streamPhase]
  rcases hh : processEvents policy sid st
      { tr with streamAttempts := tr.streamAttempts + 1 }
      (env.events.take env.streamLen) with ⟨st1, tr2, res⟩
  have hnone := processEvents_none_of_notEnded policy sid (env.events.take env.streamLen)
    hne st { tr with streamAttempts := tr.streamAttempts + 1 }
  rw [hh] at hnone
  subst hnone
  simp [herr]

theorem pollEvents_processed_inv (env : SandboxEnv) (policy : PermissionPolicy)
    (sid : String) (st : RunState) (tr : RunTrace)
    (h : st.processed = List.range st.offset) :
    ((pollEvents env policy sid st tr).1).processed =
      List.range ((pollEvents env policy sid st tr).1).offset := by
  simp only [pollEvents]
  exact pollRounds_processed_inv env policy sid _ st tr h

theorem pollEvents_nonterminal (env : SandboxEnv) (policy : PermissionPolicy)
    (sid : String) (henv : ∀ e ∈ env.events, eventNonTerminal e = true)
    (st : RunState) (tr : RunTrace) :
    (pollEvents env policy sid st tr).2.2 = none ∧
    ((pollEvents env policy sid st tr).1).sawFailed = st.sawFailed ∧
    ((pollEvents env policy sid st tr).1).sawCompleted = st.sawCompleted := by
  simp only [pollEvents]
  exact pollRounds_nonterminal env policy sid henv _ st tr

theorem pollEvents_trace (env : SandboxEnv) (policy : PermissionPolicy)
    (sid : String) (st : RunState) (tr : RunTrace) :
    ((pollEvents env policy sid st tr).2.1).terminateCalls = tr.terminateCalls ∧
    ((pollEvents env policy sid st tr).2.1).streamAttempts = tr.streamAttempts ∧
    ((pollEvents env policy sid st tr).2.1).delays = tr.delays ∧
    (∀ f ∈ ((pollEvents env policy sid st tr).2.1).fetches,
      f ∈ tr.fetches ∨ f.2 = 100) := by
  simp only [pollEvents]
  exact pollRounds_trace env policy sid _ st tr

/-! One-step unfolding equations for `runLoop`, matching the branches of
the loop body. -/

theorem runLoop_step_aborted (env : SandboxEnv) (ws : WorkspaceEnv)
    (policy : PermissionPolicy) (sid : String) (detect : Bool)
    (fuel iter : Nat) (sentTurn : Bool) (st : RunState) (tr : RunTrace)
    (hab : abortedAt env iter = true) :
    runLoop env ws policy sid detect (fuel + 1) iter sentTurn st tr =
      (st, tr, .timedOut) := by
  simp [runLoop, hab]

theorem runLoop_step_poll_res (env : SandboxEnv) (ws : WorkspaceEnv)
    (policy : PermissionPolicy) (sid : String) (detect : Bool)
    (fuel iter : Nat) (st : RunState) (tr : RunTrace)
    (st2 : RunState) (tr2 : RunTrace) (r : SandboxResult)
    (hab : abortedAt env iter = false)
    (hpoll : pollEvents env policy sid st tr = (st2, tr2, some r)) :
    runLoop env ws policy sid detect (fuel + 1) iter true st tr =
      (st2, tr2, .res (finalizeResult r ws detect)) := by
  simp [runLoop, hab, hpoll]

theorem runLoop_step_poll_failed (env : SandboxEnv) (ws : WorkspaceEnv)
    (policy : PermissionPolicy) (sid : String) (detect : Bool)
    (fuel iter : Nat) (st : RunState) (tr : RunTrace)
    (st2 : RunState) (tr2 : RunTrace)
    (hab : abortedAt env iter = false)
    (hpoll : pollEvents env policy sid st tr = (st2, tr2, none))
    (hsf : st2.sawFailed = true) :
    runLoop env ws policy sid detect (fuel + 1) iter true st tr =
      (st2, tr2, .res (finalizeResult (errorResult sid st2) ws detect)) := by
  simp [runLoop, hab, hpoll, hsf]

theorem runLoop_step_poll_completed (env : SandboxEnv) (ws : WorkspaceEnv)
    (policy : PermissionPolicy) (sid : String) (detect : Bool)
    (fuel iter : Nat) (st : RunState) (tr : RunTrace)
    (st2 : RunState) (tr2 : RunTrace)
    (hab : abortedAt env iter = false)
    (hpoll : pollEvents env policy sid st tr = (st2, tr2, none))
    (hsf : st2.sawFailed = false) (hsc : st2.sawCompleted = true) :
    runLoop env ws policy sid detect (fuel + 1) iter true st tr =
      (st2, tr2, .res (finalizeResult (completedResult sid st2) ws detect)) := by
  simp [runLoop, hab, hpoll, hsf, hsc]

theorem runLoop_step_poll_continue (env : SandboxEnv) (ws : WorkspaceEnv)
    (policy : PermissionPolicy) (sid : String) (detect : Bool)
    (fuel iter : Nat) (st : RunState) (tr : RunTrace)
    (st2 : RunState) (tr2 : RunTrace)
    (hab : abortedAt env iter = false)
    (hpoll : pollEvents env policy sid st tr = (st2, tr2, none))
    (hsf : st2.sawFailed = false) (hsc : st2.sawCompleted = false) :
    runLoop env ws policy sid detect (fuel + 1) iter true st tr =
      runLoop env ws policy sid detect fuel (iter + 1) true st2
        { tr2 with delays := tr2.delays + 1 } := by
  simp [runLoop, hab, hpoll, hsf, hsc]

theorem runLoop_step_stream_fatal (env : SandboxEnv) (ws : WorkspaceEnv)
    (policy : PermissionPolicy) (sid : String) (detect : Bool)
    (fuel iter : Nat) (st : RunState) (tr : RunTrace)
    (st1 : RunState) (tr1 : RunTrace) (res1 : Option SandboxResult)
    (hab : abortedAt env iter = false)
    (hsp : streamPhase env policy sid st tr = (st1, tr1, res1, true)) :
    runLoop env ws policy sid detect (fuel + 1) iter false st tr =
      (st1, tr1, .thrown) := by
  simp [runLoop, hab, hsp]

theorem runLoop_step_stream_res (env : SandboxEnv) (ws : WorkspaceEnv)
    (policy : PermissionPolicy) (sid : String) (detect : Bool)
    (fuel iter : Nat) (st : RunState) (tr : RunTrace)
    (st1 : RunState) (tr1 : RunTrace) (r : SandboxResult)
    (hab : abortedAt env iter = false)
    (hsp : streamPhase env policy sid st tr = (st1, tr1, some r, false)) :
    runLoop env ws policy sid detect (fuel + 1) iter false st tr =
      (st1, tr1, .res (finalizeResult r ws detect)) := by
  simp [runLoop, hab, hsp]

theorem runLoop_step_stream_none (env : SandboxEnv) (ws : WorkspaceEnv)
    (policy : PermissionPolicy) (sid : String) (detect : Bool)
    (fuel iter : Nat) (st : RunState) (tr : RunTrace)
    (st1 : RunState) (tr1 : RunTrace)
    (hab : abortedAt env iter = false)
    (hsp : streamPhase env policy sid st tr = (st1, tr1, none, false)) :
    runLoop env ws policy sid detect (fuel + 1) iter false st tr =
      runLoop env ws policy sid detect (fuel + 1) iter true st1 tr1 := by
  simp [runLoop, hab, hsp]

/-- Master invariant of the outer run loop: the processed-index log always
equals `range offset` (each event is consumed exactly once, in order); the
loop itself never requests termination; every event fetch uses page limit
100; the turn is streamed at most once (and never when it was already
sent); and a `thrown` exit only arises from a non-retryable stream
error. -/
theorem runLoop_facts (env : SandboxEnv) (ws : WorkspaceEnv) (policy : PermissionPolicy)
    (sid : String) (detect : Bool) : ∀ (fuel iter : Nat) (sentTurn : Bool)
    (st : RunState) (tr : RunTrace),
    (st.processed = List.range st.offset →
      ((runLoop env ws policy sid detect fuel iter sentTurn st tr).1).processed =
        List.range ((runLoop env ws policy sid detect fuel iter sentTurn st tr).1).offset) ∧
    ((runLoop env ws policy sid detect fuel iter sentTurn st tr).2.1).terminateCalls =
      tr.terminateCalls ∧
    (∀ f ∈ ((runLoop env ws policy sid detect fuel iter sentTurn st tr).2.1).fetches,
      f ∈ tr.fetches ∨ f.2 = 100) ∧
    (sentTurn = true →
      ((runLoop env ws policy sid detect fuel iter sentTurn st tr).2.1).streamAttempts =
        tr.streamAttempts) ∧
    ((runLoop env ws policy sid detect fuel iter sentTurn st tr).2.1).streamAttempts ≤
      tr.streamAttempts + 1 ∧
    ((runLoop env ws policy sid detect fuel iter sentTurn st tr).2.2 = .thrown →
      env.streamErr = some false) := by
  intro fuel
  induction fuel with
  | zero =>
    intro iter sentTurn st tr
    exact ⟨fun h => h, rfl, fun f hf => .inl hf, fun _ => rfl, Nat.le_succ _,
      fun h => (LoopExit.noConfusion h)⟩
  | succ n ih =>
    intro iter sentTurn st tr
    by_cases hab : abortedAt env iter = true
    · rw [runLoop_step_aborted env ws policy sid detect n iter sentTurn st tr hab]
      exact ⟨fun h => h, rfl, fun f hf => .inl hf, fun _ => rfl, Nat.le_succ _,
        fun h => (LoopExit.noConfusion h)⟩
    · have hab2 : abortedAt env iter = false := by simpa using hab
      have htrue : ∀ (st : RunState) (tr : RunTrace),
          (st.processed = List.range st.offset →
            ((runLoop env ws policy sid detect (n + 1) iter true st tr).1).processed =
              List.range
                ((runLoop env ws policy sid detect (n + 1) iter true st tr).1).offset) ∧
          ((runLoop env ws policy sid detect (n + 1) iter true st tr).2.1).terminateCalls =
            tr.terminateCalls ∧
          (∀ f ∈ ((runLoop env ws policy sid detect (n + 1) iter true st tr).2.1).fetches,
            f ∈ tr.fetches ∨ f.2 = 100) ∧
          ((runLoop env ws policy sid detect (n + 1) iter true st tr).2.1).streamAttempts =
            tr.streamAttempts ∧
          ((runLoop env ws policy sid detect (n + 1) iter true st tr).2.2 = .thrown →
            env.streamErr = some false) := by
        intro st tr
        rcases hpoll : pollEvents env policy sid st tr with ⟨st2, tr2, res2⟩
        have hpt := pollEvents_trace env policy sid st tr
        rw [hpoll] at hpt
        dsimp only at hpt
        have hpinv : st.processed = List.range st.offset →
            st2.processed = List.range st2.offset := by
          intro h
          have h2 := pollEvents_processed_inv env policy sid st tr h
          rw [hpoll] at h2
          exact h2
        cases res2 with
        | some r =>
          rw [runLoop_step_poll_res env ws policy sid detect n iter st tr st2 tr2 r
            hab2 hpoll]
          exact ⟨fun h => hpinv h, hpt.1, fun f hf => hpt.2.2.2 f hf, hpt.2.1,
            fun h => (LoopExit.noConfusion h)⟩
        | none =>
          by_cases hsf : st2.sawFailed = true
          · rw [runLoop_step_poll_failed env ws policy sid detect n iter st tr st2 tr2
              hab2 hpoll hsf]
            exact ⟨fun h => hpinv h, hpt.1, fun f hf => hpt.2.2.2 f hf, hpt.2.1,
              fun h => (LoopExit.noConfusion h)⟩
          · have hsf2 : st2.sawFailed = false := by simpa using hsf
            by_cases hsc : st2.sawCompleted = true
            · rw [runLoop_step_poll_completed env ws policy sid detect n iter st tr st2 tr2
                hab2 hpoll hsf2 hsc]
              exact ⟨fun h => hpinv h, hpt.1, fun f hf => hpt.2.2.2 f hf, hpt.2.1,
                fun h => (LoopExit.noConfusion h)⟩
            · have hsc2 : st2.sawCompleted = false := by simpa using hsc
              rw [runLoop_step_poll_continue env ws policy sid detect n iter st tr st2 tr2
                hab2 hpoll hsf2 hsc2]
              have hrec := ih (iter + 1) true st2 { tr2 with delays := tr2.delays + 1 }
              refine ⟨fun h => hrec.1 (hpinv h), ?_, fun f hf => ?_, ?_,
                hrec.2.2.2.2.2⟩
              · rw [hrec.2.1]
                exact hpt.1
              · rcases hrec.2.2.1 f hf with h1 | h1
                · exact hpt.2.2.2 f h1
                · exact .inr h1
              · rw [hrec.2.2.2.1 rfl]
                exact hpt.2.1
      cases sentTurn with
      | true =>
        have hT := htrue st tr
        exact ⟨hT.1, hT.2.1, hT.2.2.1, fun _ => hT.2.2.2.1,
          le_of_eq_of_le hT.2.2.2.1 (Nat.le_succ _), hT.2.2.2.2⟩
      | false =>
        rcases hsp : streamPhase env policy sid st tr with ⟨st1, tr1, res1, fatal⟩
        have hst := streamPhase_trace env policy sid st tr
        rw [hsp] at hst
        dsimp only at hst
        have hsinv : st.processed = List.range st.offset →
            st1.processed = List.range st1.offset := by
          intro h
          have h2 := streamPhase_processed_inv env policy sid st tr h
          rw [hsp] at h2
          exact h2
        cases fatal with
        | true =>
          rw [runLoop_step_stream_fatal env ws policy sid detect n iter st tr st1 tr1 res1
            hab2 hsp]
          refine ⟨fun h => hsinv h, hst.1, fun f hf => ?_,
            fun h => (Bool.false_ne_true h).elim, by rw [hst.2.1], fun _ => ?_⟩
          · rw [hst.2.2.2] at hf
            exact .inl hf
          · exact streamPhase_fatal_imp env policy sid st tr (by rw [hsp])
        | false =>
          cases res1 with
          | some r =>
            rw [runLoop_step_stream_res env ws policy sid detect n iter st tr st1 tr1 r
              hab2 hsp]
            refine ⟨fun h => hsinv h, hst.1, fun f hf => ?_,
              fun h => (Bool.false_ne_true h).elim, by rw [hst.2.1],
              fun h => (LoopExit.noConfusion h)⟩
            rw [hst.2.2.2] at hf
            exact .inl hf
          | none =>
            rw [runLoop_step_stream_none env ws policy sid detect n iter st tr st1 tr1
              hab2 hsp]
            have hT := htrue st1 tr1
            refine ⟨fun h => hT.1 (hsinv h), by rw [hT.2.1, hst.1], fun f hf => ?_,
              fun h => (Bool.false_ne_true h).elim, ?_, hT.2.2.2.2⟩
            · rcases hT.2.2.1 f hf with h1 | h1
              · rw [hst.2.2.2] at h1
                exact .inl h1
              · exact .inr h1
            · rw [hT.2.2.2.1, hst.2.1]

/-- If the session log never produces a terminal condition and the stream
error (if any) is retryable, the run loop spins (poll, 1 s delay, poll …)
until the timeout timer fires, and then exits with `timedOut`. -/
theorem runLoop_timeout (env : SandboxEnv) (ws : WorkspaceEnv) (policy : PermissionPolicy)
    (sid : String) (detect : Bool) (k : Nat)
    (hk : env.abortIter = some k)
    (hterm : ∀ e ∈ env.events, eventNonTerminal e = true)
    (herr : env.streamErr ≠ some false) :
    ∀ (fuel iter : Nat) (sentTurn : Bool) (st : RunState) (tr : RunTrace),
    iter ≤ k → k < iter + fuel →
    st.sawFailed = false → st.sawCompleted = false →
    (runLoop env ws policy sid detect fuel iter sentTurn st tr).2.2 = .timedOut := by
  intro fuel
  induction fuel with
  | zero => intro iter sentTurn st tr hle hlt hf hc; omega
  | succ n ih =>
    intro iter sentTurn st tr hle hlt hf hc
    by_cases hab : abortedAt env iter = true
    · rw [runLoop_step_aborted env ws policy sid detect n iter sentTurn st tr hab]
    · have hab2 : abortedAt env iter = false := by simpa using hab
      have hiterk : ¬(k ≤ iter) := by
        intro hc2
        rw [abortedAt, hk] at hab2
        simp [hc2] at hab2
      have htrue : ∀ (st : RunState) (tr : RunTrace),
          st.sawFailed = false → st.sawCompleted = false →
          (runLoop env ws policy sid detect (n + 1) iter true st tr).2.2 = .timedOut := by
        intro st tr hf2 hc2
        rcases hpoll : pollEvents env policy sid st tr with ⟨st2, tr2, res2⟩
        have hnt := pollEvents_nonterminal env policy sid hterm st tr
        rw [hpoll] at hnt
        dsimp only at hnt
        obtain ⟨hres, hpf, hpc⟩ := hnt
        subst hres
        have hsf2 : st2.sawFailed = false := by rw [hpf, hf2]
        have hsc2 : st2.sawCompleted = false := by rw [hpc, hc2]
        rw [runLoop_step_poll_continue env ws policy sid detect n iter st tr st2 tr2
          hab2 hpoll hsf2 hsc2]
        exact ih (iter + 1) true st2 { tr2 with delays := tr2.delays + 1 }
          (by omega) (by omega) hsf2 hsc2
      cases sentTurn with
      | true => exact htrue st tr hf hc
      | false =>
        rcases hsp : streamPhase env policy sid st tr with ⟨st1, tr1, res1, fatal⟩
        have hnt1 := streamPhase_nonterminal env policy sid hterm st tr
        rw [hsp] at hnt1
        dsimp only at hnt1
        obtain ⟨hres1, hf1, hc1⟩ := hnt1
        subst hres1
        cases fatal with
        | true =>
          exact absurd (streamPhase_fatal_imp env policy sid st tr (by rw [hsp])) herr
        | false =>
          rw [runLoop_step_stream_none env ws policy sid detect n iter st tr st1 tr1
            hab2 hsp]
          exact htrue st1 tr1 (by rw [hf1, hf]) (by rw [hc1, hc])

/-! ## Claim C2 -/

/-- Claim C2: for every run whose session log never emits `session.ended`
and never yields a completed or failed item, if the timeout fires (before
loop iteration `k`) and the stream raised no fatal error, the runner
returns (rather than throws) a well-formed result with `success = false`
and reason `timeout`, and requests session termination exactly once —
regardless of whether that termination request itself fails (the
environment field `terminateOk` is arbitrary; a failure is only
recorded in the trace). -/
theorem claim_C2_timeout (env : SandboxEnv) (ws : WorkspaceEnv)
    (policy : PermissionPolicy) (sid : String) (detect : Bool) (k fuel : Nat)
    (hk : env.abortIter = some k)
    (hterm : ∀ e ∈ env.events, eventNonTerminal e = true)
    (herr : env.streamErr ≠ some false)
    (hfuel : k < fuel) :
    ∃ r, (runSandboxAgentModel env ws policy sid detect fuel).1 = .result r ∧
      r.success = false ∧ r.reason = "timeout" ∧
      ((runSandboxAgentModel env ws policy sid detect fuel).2.2).terminateCalls = 1 := by
  have hexit := runLoop_timeout env ws policy sid detect k hk hterm herr fuel 0 false {} {}
    (Nat.zero_le k) (by omega) rfl rfl
  have hfacts := runLoop_facts env ws policy sid detect fuel 0 false {} {}
  unfold runSandboxAgentModel
  rcases hrl : runLoop env ws policy sid detect fuel 0 false {} {} with ⟨st, tr, ex⟩
  rw [hrl] at hexit hfacts
  dsimp only at hexit hfacts
  subst hexit
  dsimp only
  refine ⟨finalizeResult (timeoutResult sid st) ws detect, rfl, ?_, ?_, ?_⟩
  · rw [finalizeResult_success]
    rfl
  · rw [finalizeResult_reason]
    rfl
  · have h0 : tr.terminateCalls = ({} : RunTrace).terminateCalls := hfacts.2.1
    rw [h0]

/-- Witness for C2: a concrete run with only non-terminal events, a
retryable stream error, a timer firing at iteration 2, and a failing
termination request. -/
theorem claim_C2_timeout_witness :
    ∃ r, (runSandboxAgentModel
        { events := [.sessionStarted], streamLen := 1, streamErr := some true,
          abortIter := some 2, terminateOk := false }
        {} .defaultPolicy "s" true 5).1 = .result r ∧
      r.success = false ∧ r.reason = "timeout" ∧
      ((runSandboxAgentModel
        { events := [.sessionStarted], streamLen := 1, streamErr := some true,
          abortIter := some 2, terminateOk := false }
        {} .defaultPolicy "s" true 5).2.2).terminateCalls = 1 :=
  claim_C2_timeout _ {} .defaultPolicy "s" true 2 5 rfl (by decide) (by decide) (by decide)

/-! ## Claim C1 -/

/-- Counterexample for claim C1 as stated: after a transient (retryable)
stream error the runner never re-attempts streaming — the turn-sent latch
stays set — even though four 1-second backoff delays elapse before the
timeout; it keeps polling instead. The claimed "re-attempts streaming
after a fixed 1-second backoff" would require at least a second stream
attempt. -/
theorem claim_C1_counterexample :
    ((runSandboxAgentModel
        { events := [.sessionStarted, .sessionStarted, .sessionStarted], streamLen := 1,
          streamErr := some true, abortIter := some 4 }
        {} .defaultPolicy "s" true 10).2.2).streamAttempts = 1 ∧
    ((runSandboxAgentModel
        { events := [.sessionStarted, .sessionStarted, .sessionStarted], streamLen := 1,
          streamErr := some true, abortIter := some 4 }
        {} .defaultPolicy "s" true 10).2.2).delays = 4 ∧
    SandboxEnv.streamErr
        { events := [.sessionStarted, .sessionStarted, .sessionStarted], streamLen := 1,
          streamErr := some true, abortIter := some 4 } = some true := by
  refine ⟨by decide, by decide, rfl⟩

/-- Claim C1 (amended): on a transient stream error before the session
ends, the runner falls back to polling from the current monotonic offset
with page limit 100 and keeps polling (with a fixed 1 s delay between
rounds) — it never re-attempts streaming, the turn being submitted at
most once per run; no event is ever processed twice (the processed-index
log is exactly `range offset` in order); a transient error never
propagates as an exception, while a non-transient stream error does. -/
theorem claim_C1_stream_fallback :
    (∀ (env : SandboxEnv) (ws : WorkspaceEnv) (policy : PermissionPolicy) (sid : String)
        (detect : Bool) (fuel : Nat),
      ((runSandboxAgentModel env ws policy sid detect fuel).2.1).processed =
        List.range ((runSandboxAgentModel env ws policy sid detect fuel).2.1).offset) ∧
    (∀ (env : SandboxEnv) (ws : WorkspaceEnv) (policy : PermissionPolicy) (sid : String)
        (detect : Bool) (fuel : Nat),
      ((runSandboxAgentModel env ws policy sid detect fuel).2.2).streamAttempts ≤ 1) ∧
    (∀ (env : SandboxEnv) (ws : WorkspaceEnv) (policy : PermissionPolicy) (sid : String)
        (detect : Bool) (fuel : Nat),
      ∀ f ∈ ((runSandboxAgentModel env ws policy sid detect fuel).2.2).fetches,
        f.2 = 100) ∧
    (∀ (env : SandboxEnv) (ws : WorkspaceEnv) (policy : PermissionPolicy) (sid : String)
        (detect : Bool) (fuel : Nat),
      (runSandboxAgentModel env ws policy sid detect fuel).1 = .thrown →
      env.streamErr = some false) ∧
    (∀ (env : SandboxEnv) (ws : WorkspaceEnv) (policy : PermissionPolicy) (sid : String)
        (detect : Bool) (fuel : Nat),
      env.streamErr = some false →
      abortedAt env 0 = false →
      (∀ e ∈ env.events.take env.streamLen, eventNotEnded e = true) →
      1 ≤ fuel →
      (runSandboxAgentModel env ws policy sid detect fuel).1 = .thrown) := by
  have hwrap : ∀ (env : SandboxEnv) (ws : WorkspaceEnv) (policy : PermissionPolicy)
      (sid : String) (detect : Bool) (fuel : Nat),
      (runSandboxAgentModel env ws policy sid detect fuel).2.1 =
        (runLoop env ws policy sid detect fuel 0 false {} {}).1 ∧
      ((runSandboxAgentModel env ws policy sid detect fuel).2.2).streamAttempts =
        ((runLoop env ws policy sid detect fuel 0 false {} {}).2.1).streamAttempts ∧
      ((runSandboxAgentModel env ws policy sid detect fuel).2.2).fetches =
        ((runLoop env ws policy sid detect fuel 0 false {} {}).2.1).fetches ∧
      ((runSandboxAgentModel env ws policy sid detect fuel).1 = .thrown ↔
        (runLoop env ws policy sid detect fuel 0 false {} {}).2.2 = .thrown) := by
    intro env ws policy sid detect fuel
    unfold runSandboxAgentModel
    rcases hrl : runLoop env ws policy sid detect fuel 0 false {} {} with ⟨st, tr, ex⟩
    cases ex <;> simp
  refine ⟨fun env ws policy sid detect fuel => ?_, fun env ws policy sid detect fuel => ?_,
    fun env ws policy sid detect fuel => ?_, fun env ws policy sid detect fuel => ?_,
    fun env ws policy sid detect fuel herr hab hne hfuel => ?_⟩
  · rw [(hwrap env ws policy sid detect fuel).1]
    exact (runLoop_facts env ws policy sid detect fuel 0 false {} {}).1 rfl
  · rw [(hwrap env ws policy sid detect fuel).2.1]
    exact (runLoop_facts env ws policy sid detect fuel 0 false {} {}).2.2.2.2.1
  · intro f hf
    rw [(hwrap env ws policy sid detect fuel).2.2.1] at hf
    rcases (runLoop_facts env ws policy sid detect fuel 0 false {} {}).2.2.1 f hf with
      h1 | h1
    · exact absurd h1 (List.not_mem_nil f)
    · exact h1
  · intro h
    rw [(hwrap env ws policy sid detect fuel).2.2.2] at h
    exact (runLoop_facts env ws policy sid detect fuel 0 false {} {}).2.2.2.2.2 h
  · rw [(hwrap env ws policy sid detect fuel).2.2.2]
    obtain ⟨n, rfl⟩ : ∃ n, fuel = n + 1 := ⟨fuel - 1, by omega⟩
    rcases hsp : streamPhase env policy sid {} {} with ⟨st1, tr1, res1, fatal⟩
    have hfatal : (streamPhase env policy sid {} {}).2.2.2 = true :=
      streamPhase_fatal_of_err env policy sid {} {} herr hne
    rw [hsp] at hfatal
    dsimp only at hfatal
    subst hfatal
    rw [runLoop_step_stream_fatal env ws policy sid detect n 0 {} {} st1 tr1 res1 hab hsp]

/-- Witness for C1 at a concrete input: a non-transient stream error
propagates as an exception. -/
theorem claim_C1_stream_fallback_witness :
    (runSandboxAgentModel
        { events := [.sessionStarted], streamLen := 1, streamErr := some false }
        {} .defaultPolicy "s" true 3).1 = .thrown :=
  claim_C1_stream_fallback.2.2.2.2 _ {} .defaultPolicy "s" true 3 rfl rfl (by decide)
    (by decide)

/-! ## First-occurrence dedup lemmas (for C9) -/

theorem mem_insertNew (acc : List String) (s x : String) :
    x ∈ insertNew acc s ↔ x ∈ acc ∨ x = s := by
  by_cases h : s ∈ acc
  · simp only [insertNew, if_pos h]
    constructor
    · exact .inl
    · rintro (hx | rfl)
      · exact hx
      · exact h
  · simp [insertNew, if_neg h]

theorem nodup_insertNew (acc : List String) (s : String) (h : acc.Nodup) :
    (insertNew acc s).Nodup := by
  by_cases hm : s ∈ acc
  · simpa [insertNew, hm] using h
  · simp [insertNew, hm, List.nodup_append, h, List.disjoint_singleton]

theorem nodup_foldl_insertNew : ∀ (l acc : List String), acc.Nodup →
    (l.foldl insertNew acc).Nodup := by
  intro l
  induction l with
  | nil => intro acc h; simpa using h
  | cons a t ih =>
    intro acc h
    rw [List.foldl_cons]
    exact ih (insertNew acc a) (nodup_insertNew acc a h)

theorem mem_foldl_insertNew : ∀ (l acc : List String) (x : String),
    x ∈ l.foldl insertNew acc ↔ x ∈ acc ∨ x ∈ l := by
  intro l
  induction l with
  | nil => intro acc x; simp
  | cons a t ih =>
    intro acc x
    rw [List.foldl_cons, ih, mem_insertNew]
    simp [or_assoc]

theorem firstOccIdx_append_left (l1 l2 : List String) (p : String) (h : p ∈ l1) :
    firstOccIdx (l1 ++ l2) p = firstOccIdx l1 p := by
  induction l1 with
  | nil => cases h
  | cons a t ih =>
    by_cases ha : a = p
    · simp [firstOccIdx, ha]
    · have hp : p ∈ t := by
        rcases List.mem_cons.mp h with h1 | h1
        · exact absurd h1.symm ha
        · exact h1
      simp [firstOccIdx, ha, ih hp]

theorem firstOccIdx_append_right (l1 l2 : List String) (p : String) (h : p ∉ l1) :
    firstOccIdx (l1 ++ l2) p = l1.length + firstOccIdx l2 p := by
  induction l1 with
  | nil => simp
  | cons a t ih =>
    have ha : a ≠ p := fun hc => h (by rw [hc]; exact List.mem_cons_self p t)
    have ht : p ∉ t := fun hc => h (List.mem_cons_of_mem a hc)
    simp only [List.cons_append, firstOccIdx, if_neg ha, List.length_cons,
      List.append_eq]
    rw [ih ht]
    omega

theorem firstOccIdx_lt_length (l : List String) (p : String) (h : p ∈ l) :
    firstOccIdx l p < l.length := by
  induction l with
  | nil => cases h
  | cons a t ih =>
    by_cases ha : a = p
    · simp [firstOccIdx, ha]
    · have hp : p ∈ t := by
        rcases List.mem_cons.mp h with h1 | h1
        · exact absurd h1.symm ha
        · exact h1
      simp only [firstOccIdx, if_neg ha, List.length_cons]
      exact Nat.succ_lt_succ (ih hp)

theorem pairwise_foldl_insertNew : ∀ (l acc past : List String),
    (∀ x, x ∈ acc ↔ x ∈ past) →
    acc.Pairwise (fun p q => firstOccIdx (past ++ l) p < firstOccIdx (past ++ l) q) →
    (l.foldl insertNew acc).Pairwise
      (fun p q => firstOccIdx (past ++ l) p < firstOccIdx (past ++ l) q) := by
  intro l
  induction l with
  | nil => intro acc past hmem hp; simpa using hp
  | cons a t ih =>
    intro acc past hmem hp
    have hassoc : past ++ a :: t = (past ++ [a]) ++ t := by simp
    rw [List.foldl_cons]
    have hmem2 : ∀ x, x ∈ insertNew acc a ↔ x ∈ past ++ [a] := by
      intro x
      rw [mem_insertNew, hmem x]
      simp
    have hp2 : (insertNew acc a).Pairwise
        (fun p q => firstOccIdx ((past ++ [a]) ++ t) p <
          firstOccIdx ((past ++ [a]) ++ t) q) := by
      simp only [← hassoc]
      by_cases ha : a ∈ acc
      · simpa [insertNew, ha] using hp
      · rw [insertNew, if_neg ha]
        rw [List.pairwise_append]
        refine ⟨hp, List.pairwise_singleton _ _, ?_⟩
        intro p hpmem b hb
        rw [List.mem_singleton] at hb
        rw [hb]
        have hppast : p ∈ past := (hmem p).mp hpmem
        have hapast : a ∉ past := fun hc => ha ((hmem a).mpr hc)
        rw [firstOccIdx_append_left _ _ _ hppast,
            firstOccIdx_append_right _ _ _ hapast]
        have h1 : firstOccIdx past p < past.length := firstOccIdx_lt_length _ _ hppast
        have h2 : firstOccIdx (a :: t) a = 0 := by simp [firstOccIdx]
        omega
    have hres := ih (insertNew acc a) (past ++ [a]) hmem2 hp2
    simpa [← hassoc] using hres

/-! ## Equivalence of the filesModified accumulator with path extraction -/

theorem fileRefInsert_eq (files : List String) (part : ContentPart) :
    fileRefInsert files part = (partWritePaths part).foldl insertNew files := by
  cases part with
  | fileRef path action =>
    by_cases h : action = "write" ∨ action = "patch"
    · by_cases hm : path ∈ files <;>
        simp [fileRefInsert, partWritePaths, h, insertNew, hm]
    · simp [fileRefInsert, partWritePaths, h]
  | toolCall name => rfl
  | textPart text => rfl
  | otherPart => rfl

theorem content_foldl_eq : ∀ (parts : List ContentPart) (files : List String),
    parts.foldl fileRefInsert files =
      ((parts.map partWritePaths).flatten).foldl insertNew files := by
  intro parts
  induction parts with
  | nil => intro files; rfl
  | cons part rest ih =>
    intro files
    rw [List.foldl_cons, fileRefInsert_eq, List.map_cons, List.flatten_cons,
      List.foldl_append, ih]

theorem eventFilesUpdate_eq (files : List String) (e : SessionEvent) :
    eventFilesUpdate files e = (eventWritePaths e).foldl insertNew files := by
  cases e with
  | itemCompleted item =>
    cases item with
    | none => rfl
    | some it =>
      simp only [eventFilesUpdate, updateFilesFromItem, eventWritePaths, itemWritePaths]
      exact content_foldl_eq it.content files
  | sessionStarted => rfl
  | permissionRequested pid metadata => rfl
  | questionRequested qid => rfl
  | sessionEnded reason message => rfl
  | otherEvent => rfl

theorem filesAfter_foldl_eq : ∀ (events : List SessionEvent) (files : List String),
    events.foldl eventFilesUpdate files =
      (streamWritePaths events).foldl insertNew files := by
  intro events
  induction events with
  | nil => intro files; rfl
  | cons e rest ih =>
    intro files
    rw [List.foldl_cons, eventFilesUpdate_eq]
    simp only [streamWritePaths, List.map_cons, List.flatten_cons]
    rw [List.foldl_append, ih]
    rfl

/-! ## Claim C9 -/

/-- Counterexample for claim C9 as stated: a run whose event stream holds
no write/patch file-modification record at all can still end with a
nonempty `filesModified` in the final result — the detect-file-changes
reconciliation (on by default) fills it from `git status`. So the final
result does not always contain exactly the stream's record paths. -/
theorem claim_C9_counterexample :
    (match (runSandboxAgentModel
        { events := [.sessionEnded "completed" none], streamLen := 1 }
        { statusOut := some " M a.ts" } .defaultPolicy "s" true 10).1 with
     | .result r => r.filesModified
     | _ => []) = ["a.ts"] ∧
    streamWritePaths [SessionEvent.sessionEnded "completed" none] = [] := by
  exact ⟨by decide, rfl⟩

/-- Claim C9 (amended): throughout every run the accumulated
`filesModified` — as updated by `handleEvent` — contains exactly the
paths of write/patch file-modification records seen so far, with no
duplicates, in order of first occurrence in the event stream; the final
result preserves any nonempty accumulated list unchanged (when it is
empty and change detection is on, workspace reconciliation may fill it —
see the counterexample and claim C7). -/
theorem claim_C9_files_invariant :
    (∀ (policy : PermissionPolicy) (sid : String) (st : RunState) (tr : RunTrace)
        (e : SessionEvent),
      ((handleEvent policy sid st tr e).1).filesModified =
        eventFilesUpdate st.filesModified e) ∧
    (∀ events : List SessionEvent,
      filesAfterEvents events = dedupFirst (streamWritePaths events)) ∧
    (∀ events : List SessionEvent, (filesAfterEvents events).Nodup) ∧
    (∀ (events : List SessionEvent) (p : String),
      p ∈ filesAfterEvents events ↔ p ∈ streamWritePaths events) ∧
    (∀ events : List SessionEvent,
      (filesAfterEvents events).Pairwise (fun p q =>
        firstOccIdx (streamWritePaths events) p <
          firstOccIdx (streamWritePaths events) q)) ∧
    (∀ (r : SandboxResult) (ws : WorkspaceEnv) (d : Bool),
      r.filesModified ≠ [] → finalizeResult r ws d = r) := by
  refine ⟨handleEvent_filesModified, ?_, ?_, ?_, ?_,
    fun r ws d h => finalizeResult_of_nonempty r ws d h⟩
  · intro events
    exact filesAfter_foldl_eq events []
  · intro events
    rw [filesAfterEvents, filesAfter_foldl_eq]
    exact nodup_foldl_insertNew _ [] List.nodup_nil
  · intro events p
    rw [filesAfterEvents, filesAfter_foldl_eq, mem_foldl_insertNew]
    simp
  · intro events
    rw [filesAfterEvents, filesAfter_foldl_eq]
    have := pairwise_foldl_insertNew (streamWritePaths events) [] []
      (fun x => by simp) (List.Pairwise.nil)
    simpa using this

/-- Witness for C9: the invariant parts at concrete inputs — the
accumulated list after a concrete stream, and preservation of a nonempty
result through finalization. -/
theorem claim_C9_files_invariant_witness :
    filesAfterEvents [SessionEvent.itemCompleted (some c9Item)] =
      dedupFirst (streamWritePaths [SessionEvent.itemCompleted (some c9Item)]) ∧
    finalizeResult
        { success := true, sessionId := "s", reason := "completed", filesModified := ["a.ts"], summary := "x" }
        { statusOut := some " M b.ts" } true =
      { success := true, sessionId := "s", reason := "completed", filesModified := ["a.ts"], summary := "x" } :=
  ⟨claim_C9_files_invariant.2.1 _,
   claim_C9_files_invariant.2.2.2.2.2 _ _ true (by decide)⟩

end LinearBridge
